import Mathlib

/-!
Verification development for the simulation core of the `1942` arcade shooter
(`src/main.py`). The Python code is shallowly embedded below: grids are lists of
character rows, pixel quantities are integers, time quantities (Python floats
holding seconds or milliseconds) are rationals, and the diagonal bullet speed
`PLAYER_BULLET_SPEED / math.sqrt(2)` is represented exactly in the field ℚ⟮√2⟯
as a pair `(a, b)` standing for `a + b·√2`. Python `while` loops are embedded
with an explicit fuel argument; the fuel passed at each call site is proved
sufficient, so the embedded loop runs to completion exactly like the source.
-/

namespace Main1942

/-- Screen width in pixels (`WIDTH = 800`). -/
def WIDTH : ℤ := 800

/-- Screen height in pixels (`HEIGHT = 600`). -/
def HEIGHT : ℤ := 600

/-- Starting number of player lives (`PLAYER_START_LIVES = 5`). -/
def PLAYER_START_LIVES : ℤ := 5

/-- Invulnerability window set when the player is damaged, in seconds
(`INVULN_AFTER_DEATH = 2.0`). -/
def INVULN_AFTER_DEATH : ℚ := 2

/-- Duration of either weapon buff in seconds (`ENHANCED_WEAPON_DURATION = 10.0`). -/
def ENHANCED_WEAPON_DURATION : ℚ := 10

/-- Cooldown between player shots in seconds (`PLAYER_BULLET_COOLDOWN = 0.15`). -/
def PLAYER_BULLET_COOLDOWN : ℚ := 3 / 20

/-- Milliseconds of timeline time per grid row (`SPAWN_ROW_MS = 800`). -/
def SPAWN_ROW_MS : ℚ := 800

/-- Policy flag restricting big enemies to the explicit letter `B`
(`ONLY_EXPLICIT_BOSS = True`). -/
def ONLY_EXPLICIT_BOSS : Bool := true

/-- The safe zone boundary line (`self.safe_zone_y = HEIGHT - 80`). -/
def SAFE_ZONE_Y : ℤ := HEIGHT - 80

/-- A level grid: one list of characters per row (Python `list[str]`). -/
abbrev Grid := List (List Char)

/-- A grid coordinate `(row, column)`. -/
abbrev Cell := ℕ × ℕ

/-- Cell lookup `grid[r][c]`. Out-of-range lookups fall back to the blank
character; the source only ever indexes in bounds on rectangular grids. -/
def gget (g : Grid) (r c : ℕ) : Char := (g.getD r []).getD c ' '

/-- Blank test from `connected_components`: `ch not in (" ", ".", "\\t")`. The
third tuple element in the source is the two-character string backslash-t, which
a single cell character can never equal, so the effective blanks are the space
and the dot. -/
def blankChar (c : Char) : Bool := c = ' ' || c = '.'

/-- Every row has the length of the first row. `load_level_grid` pads all rows
to a common length, so grids handed to the core are rectangular. -/
def Rectangular (g : Grid) : Prop := ∀ row ∈ g, row.length = (g.headD []).length

instance (g : Grid) : Decidable (Rectangular g) :=
  inferInstanceAs (Decidable (∀ row ∈ g, row.length = (g.headD []).length))

/-- In-bounds predicate for a cell of an `R × C` grid. -/
def Inb (R C : ℕ) (p : Cell) : Prop := p.1 < R ∧ p.2 < C

/-- The finite set of all in-bounds cells of an `R × C` grid. -/
def univCells (R C : ℕ) : Finset Cell := Finset.range R ×ˢ Finset.range C

/-- One neighbour probe of the flood fill in `connected_components`: if
`(nr, nc)` is in bounds, unvisited and carries the symbol `ch`, mark it visited
and push it on the stack (`visited[nr][nc]=True; stack.append((nr,nc))`). -/
def tryPush (g : Grid) (ch : Char) (R C : ℕ) (nr nc : ℤ)
    (vs : Finset Cell × List Cell) : Finset Cell × List Cell :=
  if 0 ≤ nr ∧ nr < (R : ℤ) ∧ 0 ≤ nc ∧ nc < (C : ℤ) ∧
      (nr.toNat, nc.toNat) ∉ vs.1 ∧ gget g nr.toNat nc.toNat = ch then
    (insert (nr.toNat, nc.toNat) vs.1, (nr.toNat, nc.toNat) :: vs.2)
  else vs

/-- The `while stack:` loop of `connected_components`. The list head is the top
of the stack (Python pops from the end and appends; the four directions
`(1,0),(-1,0),(0,1),(0,-1)` are pushed in source order, so the last direction
pushed is popped first, exactly as here). The extra fuel argument bounds the
number of iterations; callers pass provably sufficient fuel. -/
def dfsLoop (g : Grid) (ch : Char) (R C : ℕ) :
    ℕ → List Cell → Finset Cell → List Cell → Finset Cell × List Cell
  | 0, _, visited, cells => (visited, cells)
  | _ + 1, [], visited, cells => (visited, cells)
  | fuel + 1, (rr, cc) :: rest, visited, cells =>
    let s1 := tryPush g ch R C ((rr : ℤ) + 1) (cc : ℤ) (visited, rest)
    let s2 := tryPush g ch R C ((rr : ℤ) - 1) (cc : ℤ) s1
    let s3 := tryPush g ch R C (rr : ℤ) ((cc : ℤ) + 1) s2
    let s4 := tryPush g ch R C (rr : ℤ) ((cc : ℤ) - 1) s3
    dfsLoop g ch R C fuel s4.2 s4.1 (cells ++ [(rr, cc)])

/-- Python `min` over a nonempty list of naturals (`0` for the empty list,
which the source never passes). -/
def listMin : List ℕ → ℕ
  | [] => 0
  | x :: xs => xs.foldl min x

/-- Python `max` over a nonempty list of naturals. -/
def listMax : List ℕ → ℕ
  | [] => 0
  | x :: xs => xs.foldl max x

/-- One connected component, as built by `connected_components`:
`{"letter":ch,"cells":cells,"min_r":...,"max_r":...,"min_c":...,"max_c":...,
"area":len(cells)}`. -/
structure Comp where
  letter : Char
  cells : List Cell
  min_r : ℕ
  max_r : ℕ
  min_c : ℕ
  max_c : ℕ
  area : ℕ
deriving DecidableEq, Repr

/-- Build the component record from its letter and collected cells. -/
def mkComp (ch : Char) (cells : List Cell) : Comp :=
  { letter := ch
    cells := cells
    min_r := listMin (cells.map Prod.fst)
    max_r := listMax (cells.map Prod.fst)
    min_c := listMin (cells.map Prod.snd)
    max_c := listMax (cells.map Prod.snd)
    area := cells.length }

/-- The outer double loop `for r in range(R): for c in range(C):` of
`connected_components`, recursing over the remaining row-major scan positions.
Each unvisited non-blank cell seeds a flood fill; the fuel `2*(R*C)+2` passed to
`dfsLoop` exceeds its decreasing measure, so the inner loop always completes. -/
def ccLoop (g : Grid) (R C : ℕ) :
    List Cell → Finset Cell → List Comp → Finset Cell × List Comp
  | [], visited, comps => (visited, comps)
  | (r, c) :: rest, visited, comps =>
    let ch := gget g r c
    if blankChar ch = false ∧ (r, c) ∉ visited then
      let res := dfsLoop g ch R C (2 * (R * C) + 2) [(r, c)] (insert (r, c) visited) []
      ccLoop g R C rest res.1 (comps ++ [mkComp ch res.2])
    else
      ccLoop g R C rest visited comps

/-- The cells of an `R × C` grid in row-major scan order. -/
def rowMajor (R C : ℕ) : List Cell :=
  ((List.range R).map fun r => (List.range C).map fun c => (r, c)).flatten

/-- `connected_components(grid)`: flood-fill extraction of the formations,
followed by the stable `comps.sort(key=lambda d: d["min_r"])` (Python's sort is
stable; insertion sort is the standard stable embedding). -/
def connected_components (g : Grid) : List Comp :=
  if g.isEmpty then []
  else
    let R := g.length
    let C := (g.headD []).length
    List.insertionSort (fun a b => a.min_r ≤ b.min_r)
      (ccLoop g R C (rowMajor R C) ∅ []).2

/-- Geometric 4-neighbourhood of cells (no diagonals). -/
def Nbr4 (p q : Cell) : Prop :=
  (p.1 = q.1 ∧ (p.2 + 1 = q.2 ∨ q.2 + 1 = p.2)) ∨
  (p.2 = q.2 ∧ (p.1 + 1 = q.1 ∨ q.1 + 1 = p.1))

/-- Two in-bounds cells carrying the same symbol and 4-adjacent to each other. -/
def Adj (g : Grid) (R C : ℕ) (p q : Cell) : Prop :=
  Inb R C p ∧ Inb R C q ∧ gget g p.1 p.2 = gget g q.1 q.2 ∧ Nbr4 p q

/-- Connectivity through chains of same-symbol 4-adjacent cells. -/
def Reach (g : Grid) (R C : ℕ) : Cell → Cell → Prop :=
  Relation.ReflTransGen (Adj g R C)

/-- A cell that is in bounds and carries the symbol `ch`. -/
def GoodCell (g : Grid) (R C : ℕ) (ch : Char) (p : Cell) : Prop :=
  Inb R C p ∧ gget g p.1 p.2 = ch

/-- Row-major scan position of a cell in a grid with `C` columns. -/
def scanIdx (C : ℕ) (p : Cell) : ℕ := p.1 * C + p.2

/-- Row-major scan position of the first cell of a component. -/
def minScan (C : ℕ) (co : Comp) : ℕ := listMin (co.cells.map (scanIdx C))

/-- An axis-aligned pygame rectangle: left, top, width, height. -/
structure Rect where
  x : ℤ
  y : ℤ
  w : ℤ
  h : ℤ
deriving DecidableEq, Repr

/-- The rectangle's center, `rect.center` (pygame uses integer halving). -/
def Rect.center (r : Rect) : ℤ × ℤ := (r.x + r.w / 2, r.y + r.h / 2)

/-- Assigning `rect.center = c` moves the left/top so the center lands on `c`. -/
def Rect.setCenter (r : Rect) (c : ℤ × ℤ) : Rect :=
  { r with x := c.1 - r.w / 2, y := c.2 - r.h / 2 }

/-- `pygame.Rect.colliderect`: proper overlap in both axes; rectangles that
merely touch, or have zero width or height, do not collide. -/
def rectsCollide (a b : Rect) : Bool :=
  decide (a.x < b.x + b.w) && decide (b.x < a.x + a.w) &&
  decide (a.y < b.y + b.h) && decide (b.y < a.y + a.h)

/-- An element of ℚ⟮√2⟯: the pair `(a, b)` stands for the real `a + b·√2`.
Used to represent bullet velocities exactly (the diagonal speed is
`600 / √2 = 300·√2`). -/
abbrev Q2 := ℚ × ℚ

/-- A projectile (class `Bullet`): center position, velocity, allegiance. -/
structure Bullet where
  x : ℤ
  y : ℤ
  vx : Q2
  vy : Q2
  friendly : Bool
deriving DecidableEq, Repr

/-- The player state (class `Player`): bounding rectangle, lives, timers.
Timestamps are seconds as rationals. -/
structure Player where
  rect : Rect
  lives : ℤ
  invuln_t : ℚ
  shoot_t : ℚ
  ammo : ℤ
  enhanced_until : ℚ
  fan_until : ℚ
deriving DecidableEq, Repr

/-- `Player.has_enhanced(now)`: the triple-shot buff is active. -/
def Player.has_enhanced (p : Player) (now : ℚ) : Prop := now < p.enhanced_until

/-- `Player.grant_enhanced(now)`: extend the triple-shot expiry. -/
def Player.grant_enhanced (p : Player) (now : ℚ) : Player :=
  { p with enhanced_until := max p.enhanced_until (now + ENHANCED_WEAPON_DURATION) }

/-- `Player.has_fan(now)`: the diagonal-shot buff is active. -/
def Player.has_fan (p : Player) (now : ℚ) : Prop := now < p.fan_until

instance (p : Player) (now : ℚ) : Decidable (p.has_enhanced now) :=
  inferInstanceAs (Decidable (now < p.enhanced_until))

instance (p : Player) (now : ℚ) : Decidable (p.has_fan now) :=
  inferInstanceAs (Decidable (now < p.fan_until))

/-- `Player.grant_fan(now)`: extend the diagonal-shot expiry. -/
def Player.grant_fan (p : Player) (now : ℚ) : Player :=
  { p with fan_until := max p.fan_until (now + ENHANCED_WEAPON_DURATION) }

/-- `Player.damage()`: no effect while invulnerable; otherwise lose one life,
restart the invulnerability window and report whether the player survives
(`return self.lives >= 0` after the decrement). -/
def Player.damage (p : Player) : Player × Bool :=
  if 0 < p.invuln_t then (p, false)
  else ({ p with lives := p.lives - 1, invuln_t := INVULN_AFTER_DEATH },
        decide (0 ≤ p.lives - 1))

/-- `Player.shoot(now, bullets_group)`: gated by the cooldown; one upward
bullet, or three if the triple-shot buff is active, plus two diagonal bullets
if the fan buff is active. Returns the updated player and the bullets added to
the group, in source order. -/
def Player.shoot (p : Player) (now : ℚ) : Player × List Bullet :=
  if now < p.shoot_t then (p, [])
  else
    let p' := { p with shoot_t := now + PLAYER_BULLET_COOLDOWN }
    let cx := p.rect.x + p.rect.w / 2
    let cy := p.rect.y
    let base : List Bullet :=
      if now < p.enhanced_until then
        [⟨cx, cy, (0, 0), (-600, 0), true⟩,
         ⟨cx - 10, cy, (0, 0), (-600, 0), true⟩,
         ⟨cx + 10, cy, (0, 0), (-600, 0), true⟩]
      else
        [⟨cx, cy, (0, 0), (-600, 0), true⟩]
    let fan : List Bullet :=
      if now < p.fan_until then
        [⟨cx, cy, (0, -300), (0, -300), true⟩,
         ⟨cx, cy, (0, 300), (0, -300), true⟩]
      else []
    (p', base ++ fan)

/-- A scheduled formation spawn (class `SpawnEvent`). -/
structure SpawnEvent where
  min_row : ℕ
  cx : ℤ
  cy : ℤ
  w_cells : ℕ
  h_cells : ℕ
  letter : Char
  spawned : Bool
deriving DecidableEq, Repr

/-- Mark an event as materialized (`ev.spawned = True`). -/
def SpawnEvent.setSpawned (ev : SpawnEvent) : SpawnEvent := { ev with spawned := true }

/-- The body of `for ev in self.events:` inside `LevelTimeline.update`: flip the
flag of every not-yet-spawned event whose `min_row` equals the completed row and
log the materializations (`self._spawn_event(ev, ...)` calls) with their event
index, in source order. -/
def spawnRowAux (target : ℕ) : List SpawnEvent → ℕ → List SpawnEvent × List (ℕ × SpawnEvent)
  | [], _ => ([], [])
  | ev :: rest, i =>
    let r := spawnRowAux target rest (i + 1)
    if ev.spawned = false ∧ ev.min_row = target then
      (ev.setSpawned :: r.1, (i, ev.setSpawned) :: r.2)
    else (ev :: r.1, r.2)

/-- The timeline state of a level (class `LevelTimeline`). `all_spawned_time`
records the `pygame.time.get_ticks()` value when spawning finished. -/
structure LevelTimeline where
  R : ℕ
  events : List SpawnEvent
  row_timer : ℚ
  row_index : ℕ
  done_spawning : Bool
  all_spawned_time : Option ℚ
deriving DecidableEq, Repr

/-- `LevelTimeline.__init__`: build one spawn event per connected component
(the pixel center `cx` is `int(center_c * cell_w)`, truncation of a nonnegative
value, hence a floor), then the stable sort by `min_row`. -/
def mkTimeline (g : Grid) : LevelTimeline :=
  let R := g.length
  let C := if R ≠ 0 then (g.headD []).length else 0
  let cell_w : ℚ := 800 / (max 1 C : ℕ)
  let cell_h : ℤ := 28
  let comps := connected_components g
  let events := comps.map fun comp =>
    let center_c : ℚ := ((comp.min_c : ℚ) + (comp.max_c : ℚ) + 1) / 2
    let w_cells : ℕ := comp.max_c - comp.min_c + 1
    let h_cells : ℕ := comp.max_r - comp.min_r + 1
    let cx : ℤ := ⌊center_c * cell_w⌋
    let cy : ℤ := -((h_cells : ℤ) * cell_h) - 20
    SpawnEvent.mk comp.min_r cx cy w_cells h_cells comp.letter false
  { R := R
    events := List.insertionSort (fun a b => a.min_row ≤ b.min_row) events
    row_timer := 0
    row_index := 0
    done_spawning := false
    all_spawned_time := none }

/-- The `while` loop of `LevelTimeline.update`: as long as spawning is not done
and the accumulated timer has crossed the next row threshold, advance the row
index and materialize the events of the row just completed. Fuel bounds the
iterations; `LevelTimeline.update` passes provably sufficient fuel. -/
def tlLoop : ℕ → LevelTimeline → List (ℕ × SpawnEvent) →
    LevelTimeline × List (ℕ × SpawnEvent)
  | 0, tl, log => (tl, log)
  | fuel + 1, tl, log =>
    if tl.done_spawning = false ∧ SPAWN_ROW_MS * (tl.row_index + 1) ≤ tl.row_timer then
      let idx := tl.row_index + 1
      let r := spawnRowAux (idx - 1) tl.events 0
      tlLoop fuel { tl with row_index := idx, events := r.1 } (log ++ r.2)
    else (tl, log)

/-- `LevelTimeline.update(dt_ms, ...)`: accumulate the frame delta, run the row
loop, then mark the timeline done once the row index has passed the last row
(recording the current tick count, passed in as `ticks`). Also returns the list
of materializations performed, as `(event index, event)` pairs. -/
def LevelTimeline.update (tl : LevelTimeline) (dt_ms : ℚ) (ticks : ℚ) :
    LevelTimeline × List (ℕ × SpawnEvent) :=
  let tl1 := { tl with row_timer := tl.row_timer + dt_ms }
  let r := tlLoop (⌈tl1.row_timer / SPAWN_ROW_MS⌉₊ + 1) tl1 []
  if r.1.done_spawning = false ∧ r.1.R ≤ r.1.row_index then
    ({ r.1 with done_spawning := true, all_spawned_time := some ticks }, r.2)
  else (r.1, r.2)

/-- Fold a list of `(dt_ms, ticks)` frame deltas through `LevelTimeline.update`,
concatenating the materialization logs. -/
def runUpdates : LevelTimeline → List (ℚ × ℚ) → LevelTimeline × List (ℕ × SpawnEvent)
  | tl, [] => (tl, [])
  | tl, (dt, ticks) :: rest =>
    let r := tl.update dt ticks
    let r2 := runUpdates r.1 rest
    (r2.1, r.2 ++ r2.2)

/-- Every event of a completed row has been spawned. This is the timeline
invariant stating that no materialization is ever skipped. -/
def TimelineInv (tl : LevelTimeline) : Prop :=
  ∀ ev ∈ tl.events, ev.min_row < tl.row_index → ev.spawned = true

instance (tl : LevelTimeline) : Decidable (TimelineInv tl) :=
  inferInstanceAs (Decidable (∀ ev ∈ tl.events, ev.min_row < tl.row_index → ev.spawned = true))

/-- Enemy kinds materialized by `LevelTimeline._spawn_event`. -/
inductive EnemyKind where
  | basic
  | shooter
  | kamikaze
  | big
deriving DecidableEq, Repr

/-- The enemy record produced by a spawn: its kind and initial hit points. -/
structure SpawnedEnemy where
  kind : EnemyKind
  hp : ℕ
deriving DecidableEq, Repr

/-- Hit points of a `BigEnemy`: `hp = max(6, 4 + (w_cells * h_cells) // 2)` —
the floor 4 plus half the bounding-box cell area, with minimum 6. -/
def bigEnemyHp (w_cells h_cells : ℕ) : ℕ := max 6 (4 + w_cells * h_cells / 2)

/-- The `# Normal spawns` tail of `_spawn_event`: shooter, kamikaze or basic. -/
def normalSpawn (letter : Char) : SpawnedEnemy :=
  if letter = 'S' then ⟨.shooter, 3⟩
  else if letter = 'K' then ⟨.kamikaze, 2⟩
  else ⟨.basic, 2⟩

/-- `LevelTimeline._spawn_event`: with `ONLY_EXPLICIT_BOSS` enabled only the
letter `B` can become a `BigEnemy`; a `B` component wider or taller than 12
cells is suppressed to a plain enemy (the suppressed assignment is then
overwritten by the normal-spawn section, with the same result). -/
def spawnEnemyOf (ev : SpawnEvent) : SpawnedEnemy :=
  let letter := ev.letter.toUpper
  if ONLY_EXPLICIT_BOSS = true ∧ letter ≠ 'B' then
    normalSpawn letter
  else if letter = 'B' then
    if 12 < ev.w_cells ∨ 12 < ev.h_cells then normalSpawn letter
    else ⟨.big, bigEnemyHp ev.w_cells ev.h_cells⟩
  else normalSpawn letter

/-- Modelled from the spec (§4.4, §8): the claimed big-enemy hit-point formula
based on the formation's area, i.e. its number of cells: floor 4 plus half the
area, with the same minimum floor the code applies. Used to compare the claim
against the source formula, which uses the bounding-box cell area instead. -/
def hpSpecArea (area : ℕ) : ℕ := max 6 (4 + area / 2)

/-- The player-damage resolution step of `Game.update` (the block guarded by
`if self.player_sprite.invuln_t <= 0:`): on contact with any hostile bullet or
enemy body, save the center, apply `Player.damage`, destroy every hostile
bullet overlapping the player, and either end the session (`game_over`) or
restore the saved center. Returns the player, the surviving hostile bullets and
the session-ended flag. -/
def damagePhase (p : Player) (enemy_bullets : List Rect) (enemies : List Rect) :
    Player × List Rect × Bool :=
  if p.invuln_t ≤ 0 then
    if (enemy_bullets.any fun b => rectsCollide p.rect b) ||
        (enemies.any fun e => rectsCollide p.rect e) then
      let c := p.rect.center
      let pd := p.damage
      let bullets' := enemy_bullets.filter fun b => !rectsCollide p.rect b
      if pd.2 then ({ pd.1 with rect := pd.1.rect.setCenter c }, bullets', false)
      else (pd.1, bullets', true)
    else (p, enemy_bullets, false)
  else (p, enemy_bullets, false)

/-- Iterated damaging contacts: each hit lands after the invulnerability window
has fully elapsed (`invuln_t` has counted down to 0). Returns the player after
`n` hits together with the survival flag of the last hit. -/
def nHits (p : Player) : ℕ → Player × Bool
  | 0 => (p, true)
  | n + 1 =>
    let r := nHits p n
    Player.damage { r.1 with invuln_t := 0 }

/-- Pickup kinds (`DROP_TYPES`). -/
inductive DropKind where
  | health
  | ammo
  | enhanced
  | fan
deriving DecidableEq, Repr

/-- A falling pickup (class `Drop`). -/
structure Drop where
  kind : DropKind
  x : ℤ
  y : ℤ
deriving DecidableEq, Repr

/-- Terminal state of the session. -/
inductive Outcome where
  | playing
  | won
  | lost
deriving DecidableEq, Repr

/-- The session state fragment of class `Game` relevant to level transitions:
the queued level grids (standing for `level_paths`, already loaded), the four
entity populations, the player, and the terminal outcome. -/
structure GameState where
  levels : List Grid
  level_index : ℕ
  timeline : LevelTimeline
  enemies : List SpawnedEnemy
  enemy_bullets : List Bullet
  player_bullets : List Bullet
  drops : List Drop
  fx : List (ℤ × ℤ)
  player : Player
  safe_zone_active : Bool
  outcome : Outcome

/-- `Game.load_level`: install the new level's timeline, deactivate the safe
zone, and clear hostile bullets, enemies, pickups and effects. The friendly
bullet group is not touched. -/
def loadLevel (st : GameState) (grid : Grid) : GameState :=
  { st with
    timeline := mkTimeline grid
    safe_zone_active := false
    enemy_bullets := []
    enemies := []
    drops := []
    fx := [] }

/-- `Game.next_level_or_win`: advance the level index; if another level is
queued, load it, recenter the player at `(WIDTH//2, HEIGHT-70)` and grant one
second of invulnerability; otherwise the session ends as a win. -/
def nextLevelOrWin (st : GameState) : GameState :=
  let st1 := { st with level_index := st.level_index + 1 }
  if h : st1.level_index < st1.levels.length then
    let st2 := loadLevel st1 (st1.levels.get ⟨st1.level_index, h⟩)
    { st2 with player :=
        { st2.player with
          rect := st2.player.rect.setCenter (WIDTH / 2, HEIGHT - 70)
          invuln_t := 1 } }
  else { st1 with outcome := .won }

/-- The safe-zone check at the end of `Game.update`: when the safe zone is
active and the player's rectangle top has crossed the boundary line, run
`next_level_or_win`. -/
def safeZoneStep (st : GameState) : GameState :=
  if st.safe_zone_active = true ∧ st.player.rect.y ≤ SAFE_ZONE_Y then
    nextLevelOrWin st
  else st

/-- A cell whose character the flood fill does not treat as blank. -/
def NonBlank (g : Grid) (p : Cell) : Prop := blankChar (gget g p.1 p.2) = false

/-- The pointwise effect on one event of completing one row: an unspawned event
whose trigger row equals `target` is materialized. -/
def stepRow (target : ℕ) (ev : SpawnEvent) : SpawnEvent :=
  if ev.spawned = false ∧ ev.min_row = target then ev.setSpawned else ev

/-- The pointwise effect on one event of completing all rows in `[lo, hi)`. -/
def stepRange (lo hi : ℕ) (ev : SpawnEvent) : SpawnEvent :=
  if ev.spawned = false ∧ lo ≤ ev.min_row ∧ ev.min_row < hi then ev.setSpawned else ev

/-- Observable projection of a spawn event: letter, trigger row, spawned flag. -/
def evView (ev : SpawnEvent) : Char × ℕ × Bool := (ev.letter, ev.min_row, ev.spawned)

/-- The action of `stepRange` on the observable projection. -/
def vStep (lo hi : ℕ) : Char × ℕ × Bool → Char × ℕ × Bool :=
  fun v => (v.1, v.2.1, v.2.2 || decide (v.2.2 = false ∧ lo ≤ v.2.1 ∧ v.2.1 < hi))

/-- Summary of one full run of the row loop `tlLoop` from state `tl` with
accumulated log `log`, producing `r`: the timer, grid height, done flag and
timestamp are untouched; if spawning was already done nothing happens at all;
otherwise the row index advances to `max(row_index, ⌊timer / row_ms⌋)`, every
event is transformed pointwise by `stepRange`, and the appended log records
exactly the events materialized, each previously unspawned and triggered by a
row completed in this run. -/
def TlLoopSpec (tl : LevelTimeline) (log : List (ℕ × SpawnEvent))
    (r : LevelTimeline × List (ℕ × SpawnEvent)) : Prop :=
  r.1.row_timer = tl.row_timer ∧
  r.1.R = tl.R ∧
  r.1.done_spawning = tl.done_spawning ∧
  r.1.all_spawned_time = tl.all_spawned_time ∧
  tl.row_index ≤ r.1.row_index ∧
  (tl.done_spawning = true → r.1 = tl ∧ r.2 = log) ∧
  (tl.done_spawning = false →
    r.1.row_index = max tl.row_index ⌊tl.row_timer / SPAWN_ROW_MS⌋₊ ∧
    r.1.events = tl.events.map (stepRange tl.row_index r.1.row_index) ∧
    ∃ newLog, r.2 = log ++ newLog ∧
      (newLog.map Prod.fst).Nodup ∧
      ∀ q ∈ newLog, ∃ ev, tl.events[q.1]? = some ev ∧ ev.spawned = false ∧
        tl.row_index ≤ ev.min_row ∧ ev.min_row < r.1.row_index ∧
        q.2 = ev.setSpawned)

/-- Summary of `LevelTimeline.update tl dt ticks = r`: the frame delta is
accumulated; if spawning was done, only the timer changes and nothing spawns;
otherwise the row index catches up with every crossed threshold, events are
transformed pointwise by `stepRange`, the done flag is set exactly when the row
index has passed the last row, and the log records exactly the materializations
of this call. -/
def UpdateSpec (tl : LevelTimeline) (dt : ℚ)
    (r : LevelTimeline × List (ℕ × SpawnEvent)) : Prop :=
  r.1.row_timer = tl.row_timer + dt ∧
  r.1.R = tl.R ∧
  tl.row_index ≤ r.1.row_index ∧
  r.1.events.length = tl.events.length ∧
  (tl.done_spawning = true →
    r.1 = { tl with row_timer := tl.row_timer + dt } ∧ r.2 = []) ∧
  (tl.done_spawning = false →
    r.1.row_index = max tl.row_index ⌊(tl.row_timer + dt) / SPAWN_ROW_MS⌋₊ ∧
    r.1.events = tl.events.map (stepRange tl.row_index r.1.row_index) ∧
    r.1.done_spawning = decide (tl.R ≤ r.1.row_index) ∧
    ∀ q ∈ r.2, ∃ ev, tl.events[q.1]? = some ev ∧ ev.spawned = false ∧
      tl.row_index ≤ ev.min_row ∧ ev.min_row < r.1.row_index ∧
      q.2 = ev.setSpawned) ∧
  (r.2.map Prod.fst).Nodup

/-- Invariant of the inner flood-fill loop of `connected_components`, relative
to the visited set `vis0` from before the current fill, the seed cell, and the
seed's character `ch`: the visited set is exactly `vis0` plus the cells on the
stack or already collected; those cells are fresh, distinct, in bounds, carry
the character `ch` and are connected to the seed. -/
structure DfsInv (g : Grid) (R C : ℕ) (ch : Char) (vis0 : Finset Cell) (seed : Cell)
    (stack : List Cell) (visited : Finset Cell) (cells : List Cell) : Prop where
  hvis : visited = vis0 ∪ stack.toFinset ∪ cells.toFinset
  hnd : (stack ++ cells).Nodup
  hfresh : ∀ p ∈ stack ++ cells, p ∉ vis0
  hgood : ∀ p ∈ stack ++ cells, GoodCell g R C ch p
  hreach : ∀ p ∈ stack ++ cells, Reach g R C seed p

/-- Effect of a block of neighbour probes starting from `src`: finitely many
fresh, in-bounds cells carrying `ch` and 4-adjacent to `src` are marked visited
and pushed. -/
def StepsInv (g : Grid) (R C : ℕ) (ch : Char) (src : Cell)
    (vs vs' : Finset Cell × List Cell) : Prop :=
  ∃ news : List Cell,
    vs'.1 = vs.1 ∪ news.toFinset ∧
    vs'.2 = news ++ vs.2 ∧
    news.Nodup ∧
    (∀ q ∈ news, q ∉ vs.1) ∧
    (∀ q ∈ news, GoodCell g R C ch q) ∧
    (∀ q ∈ news, Nbr4 src q)

/-- Invariant of the outer row-major scan of `connected_components`: the
components found so far cover exactly the visited cells, are well formed
(nonblank uniform letter, in bounds, distinct, mutually connected, pairwise
disjoint), every non-blank cell is either visited or still to be scanned, the
remaining scan positions are strictly increasing, and the components appear in
strictly increasing order of the scan position of their first cell, which also
realizes their `min_r`. -/
structure CCInv (g : Grid) (R C : ℕ) (todo : List Cell) (visited : Finset Cell)
    (comps : List Comp) : Prop where
  hvis : ∀ p : Cell, p ∈ visited ↔ ∃ co ∈ comps, p ∈ co.cells
  hgood : ∀ co ∈ comps, ∀ p ∈ co.cells, GoodCell g R C co.letter p
  hblank : ∀ co ∈ comps, blankChar co.letter = false
  hne : ∀ co ∈ comps, co.cells ≠ []
  hnd : ∀ co ∈ comps, co.cells.Nodup
  hdisj : List.Pairwise (fun c1 c2 => ∀ p, p ∈ c1.cells → p ∉ c2.cells) comps
  hreach : ∀ co ∈ comps, ∀ x ∈ co.cells, ∀ y ∈ co.cells, Reach g R C x y
  hcover : ∀ p : Cell, Inb R C p → NonBlank g p → p ∈ visited ∨ p ∈ todo
  htodoS : List.Pairwise (fun a b => scanIdx C a < scanIdx C b) todo
  htodoI : ∀ p ∈ todo, Inb R C p
  hsep : ∀ co ∈ comps, ∀ q ∈ todo, minScan C co < scanIdx C q
  hcscan : List.Pairwise (fun c1 c2 => minScan C c1 < minScan C c2) comps
  hfirst : ∀ co ∈ comps, ∃ s ∈ co.cells, scanIdx C s = minScan C co ∧
    s.1 = co.min_r ∧ ∀ p ∈ co.cells, minScan C co ≤ scanIdx C p

/-- The three-row example grid `"S.."`, `"..."`, `".K."` from the spec. -/
def gridSK : Grid := [['S', '.', '.'], ['.', '.', '.'], ['.', 'K', '.']]

/-- A 3×3 block of the big-enemy letter `B`. -/
def gridBox3 : Grid := [['B', 'B', 'B'], ['B', 'B', 'B'], ['B', 'B', 'B']]

/-- An L-shaped formation of `B` cells: a 5-cell-tall column joined to a
5-cell-wide bottom row. Its cell count (area 9) differs from its bounding-box
cell area (5 · 5 = 25). -/
def gridL : Grid :=
  [['B', '.', '.', '.', '.'],
   ['B', '.', '.', '.', '.'],
   ['B', '.', '.', '.', '.'],
   ['B', '.', '.', '.', '.'],
   ['B', 'B', 'B', 'B', 'B']]

/-- A sample player state used to instantiate theorems with hypotheses. -/
def samplePlayer : Player :=
  { rect := ⟨390, 520, 20, 20⟩
    lives := PLAYER_START_LIVES
    invuln_t := 0
    shoot_t := 0
    ammo := 9999
    enhanced_until := 0
    fan_until := 0 }

/-- A sample two-level session state with the safe zone active, used to
instantiate the level-transition theorem. -/
def sampleGame : GameState :=
  { levels := [gridSK, gridBox3]
    level_index := 0
    timeline := mkTimeline gridSK
    enemies := [⟨.basic, 2⟩]
    enemy_bullets := [⟨10, 10, (0, 0), (300, 0), false⟩]
    player_bullets := [⟨20, 20, (0, 0), (-600, 0), true⟩]
    drops := [⟨.health, 5, 5⟩]
    fx := []
    player := samplePlayer
    safe_zone_active := true
    outcome := .playing }

theorem setCenter_center (r : Rect) : r.setCenter r.center = r := by
  simp [Rect.setCenter, Rect.center]

/-- C6: buff acquisition sets the expiry to `max(current expiry, now + fixed
duration)`: re-acquiring refreshes to the later `now + duration` rather than
summing durations, and never shortens the remaining time. Both buffs behave
alike. -/
theorem buff_extension_max (p : Player) (now now1 now2 : ℚ)
    (h12 : now1 ≤ now2)
    (hecap : p.enhanced_until ≤ now2 + ENHANCED_WEAPON_DURATION)
    (hfcap : p.fan_until ≤ now2 + ENHANCED_WEAPON_DURATION) :
    (p.grant_enhanced now).enhanced_until
        = max p.enhanced_until (now + ENHANCED_WEAPON_DURATION) ∧
    p.enhanced_until ≤ (p.grant_enhanced now).enhanced_until ∧
    ((p.grant_enhanced now1).grant_enhanced now2).enhanced_until
        = now2 + ENHANCED_WEAPON_DURATION ∧
    (p.grant_fan now).fan_until = max p.fan_until (now + ENHANCED_WEAPON_DURATION) ∧
    p.fan_until ≤ (p.grant_fan now).fan_until ∧
    ((p.grant_fan now1).grant_fan now2).fan_until
        = now2 + ENHANCED_WEAPON_DURATION := by
  have hd : now1 + ENHANCED_WEAPON_DURATION ≤ now2 + ENHANCED_WEAPON_DURATION :=
    add_le_add_right h12 _
  refine ⟨rfl, le_max_left _ _, ?_, rfl, le_max_left _ _, ?_⟩
  · show max (max p.enhanced_until (now1 + ENHANCED_WEAPON_DURATION))
        (now2 + ENHANCED_WEAPON_DURATION) = now2 + ENHANCED_WEAPON_DURATION
    rw [max_assoc, max_eq_right hd, max_eq_right hecap]
  · show max (max p.fan_until (now1 + ENHANCED_WEAPON_DURATION))
        (now2 + ENHANCED_WEAPON_DURATION) = now2 + ENHANCED_WEAPON_DURATION
    rw [max_assoc, max_eq_right hd, max_eq_right hfcap]

theorem buff_extension_max_witness :
    ((1 : ℚ) ≤ 2 ∧ samplePlayer.enhanced_until ≤ 2 + ENHANCED_WEAPON_DURATION ∧
      samplePlayer.fan_until ≤ 2 + ENHANCED_WEAPON_DURATION) ∧
    ((samplePlayer.grant_enhanced 0).enhanced_until
        = max samplePlayer.enhanced_until (0 + ENHANCED_WEAPON_DURATION) ∧
      samplePlayer.enhanced_until ≤ (samplePlayer.grant_enhanced 0).enhanced_until ∧
      ((samplePlayer.grant_enhanced 1).grant_enhanced 2).enhanced_until
        = 2 + ENHANCED_WEAPON_DURATION ∧
      (samplePlayer.grant_fan 0).fan_until
        = max samplePlayer.fan_until (0 + ENHANCED_WEAPON_DURATION) ∧
      samplePlayer.fan_until ≤ (samplePlayer.grant_fan 0).fan_until ∧
      ((samplePlayer.grant_fan 1).grant_fan 2).fan_until
        = 2 + ENHANCED_WEAPON_DURATION) :=
  ⟨⟨by norm_num, by norm_num [samplePlayer, ENHANCED_WEAPON_DURATION],
      by norm_num [samplePlayer, ENHANCED_WEAPON_DURATION]⟩,
    buff_extension_max samplePlayer 0 1 2 (by norm_num)
      (by norm_num [samplePlayer, ENHANCED_WEAPON_DURATION])
      (by norm_num [samplePlayer, ENHANCED_WEAPON_DURATION])⟩

/-- C7: firing succeeds only once the cooldown has elapsed; it then spawns one
upward friendly bullet, or three (center plus two offset by ±10 pixels) when
the triple-shot buff is active, plus two diagonal friendly bullets (nonzero
horizontal velocity) when the diagonal-shot buff is active, independently of
the triple-shot — five bullets with both buffs. -/
theorem shoot_pattern (p : Player) (now : ℚ) :
    (now < p.shoot_t → p.shoot now = (p, [])) ∧
    (¬ now < p.shoot_t →
      (p.shoot now).2.length
          = (if p.has_enhanced now then 3 else 1) + (if p.has_fan now then 2 else 0) ∧
      ((p.shoot now).2.countP fun b => decide (b.vx ≠ ((0 : ℚ), (0 : ℚ))))
          = (if p.has_fan now then 2 else 0) ∧
      (∀ b ∈ (p.shoot now).2, b.friendly = true) ∧
      (¬ p.has_enhanced now → ¬ p.has_fan now →
        (p.shoot now).2
          = [⟨p.rect.x + p.rect.w / 2, p.rect.y, (0, 0), (-600, 0), true⟩]) ∧
      (p.has_enhanced now → p.has_fan now →
        ((p.shoot now).2.map fun b => b.x)
          = [p.rect.x + p.rect.w / 2, p.rect.x + p.rect.w / 2 - 10,
             p.rect.x + p.rect.w / 2 + 10, p.rect.x + p.rect.w / 2,
             p.rect.x + p.rect.w / 2])) := by
  constructor
  · intro h
    simp [Player.shoot, h]
  · intro h
    by_cases he : now < p.enhanced_until <;> by_cases hf : now < p.fan_until <;>
      simp [Player.shoot, Player.has_enhanced, Player.has_fan, h, he, hf,
        List.countP_cons, List.countP_nil]

theorem shoot_pattern_witness :
    (¬ (0 : ℚ) < samplePlayer.shoot_t) ∧
    ((samplePlayer.shoot 0).2.length
        = (if samplePlayer.has_enhanced 0 then 3 else 1)
          + (if samplePlayer.has_fan 0 then 2 else 0) ∧
      ((samplePlayer.shoot 0).2.countP fun b => decide (b.vx ≠ ((0 : ℚ), (0 : ℚ))))
        = (if samplePlayer.has_fan 0 then 2 else 0) ∧
      (∀ b ∈ (samplePlayer.shoot 0).2, b.friendly = true) ∧
      (¬ samplePlayer.has_enhanced 0 → ¬ samplePlayer.has_fan 0 →
        (samplePlayer.shoot 0).2
          = [⟨samplePlayer.rect.x + samplePlayer.rect.w / 2, samplePlayer.rect.y,
              (0, 0), (-600, 0), true⟩]) ∧
      (samplePlayer.has_enhanced 0 → samplePlayer.has_fan 0 →
        ((samplePlayer.shoot 0).2.map fun b => b.x)
          = [samplePlayer.rect.x + samplePlayer.rect.w / 2,
             samplePlayer.rect.x + samplePlayer.rect.w / 2 - 10,
             samplePlayer.rect.x + samplePlayer.rect.w / 2 + 10,
             samplePlayer.rect.x + samplePlayer.rect.w / 2,
             samplePlayer.rect.x + samplePlayer.rect.w / 2])) :=
  ⟨by decide, (shoot_pattern samplePlayer 0).2 (by decide)⟩

/-- C10: the life floor ending the session is strictly below zero: a
post-invulnerability hit decrements lives by one and is fatal exactly when the
decrement makes lives negative; the `damagePhase` session-end flag agrees.
From the starting 5 lives the player survives 5 hits (displaying 0 lives,
still alive) and loses on the 6th. -/
theorem life_floor (p : Player) (hready : p.invuln_t ≤ 0) :
    ((p.damage).2 = false ↔ p.lives - 1 < 0) ∧
    (p.damage).1.lives = p.lives - 1 ∧
    (∀ ebs ens : List Rect,
      ((∃ b ∈ ebs, rectsCollide p.rect b = true) ∨
        (∃ e ∈ ens, rectsCollide p.rect e = true)) →
      ((damagePhase p ebs ens).2.2 = true ↔ p.lives - 1 < 0)) ∧
    (nHits samplePlayer 5).2 = true ∧
    (nHits samplePlayer 5).1.lives = 0 ∧
    (nHits samplePlayer 6).2 = false := by
  have hni : ¬ 0 < p.invuln_t := not_lt.mpr hready
  have hdmg : p.damage
      = ({ p with lives := p.lives - 1, invuln_t := INVULN_AFTER_DEATH },
          decide (0 ≤ p.lives - 1)) := by
    simp [Player.damage, hni]
  refine ⟨?_, ?_, ?_, by decide, by decide, by decide⟩
  · rw [hdmg]
    simp [decide_eq_false_iff_not, not_le]
  · rw [hdmg]
  · intro ebs ens hc
    have hcontact : ((ebs.any fun b => rectsCollide p.rect b) ||
        (ens.any fun e => rectsCollide p.rect e)) = true := by
      rcases hc with ⟨b, hb, hcb⟩ | ⟨e, hee, hce⟩
      · exact Bool.or_eq_true_iff.mpr (Or.inl (List.any_eq_true.mpr ⟨b, hb, hcb⟩))
      · exact Bool.or_eq_true_iff.mpr (Or.inr (List.any_eq_true.mpr ⟨e, hee, hce⟩))
    by_cases hl : (0 : ℤ) ≤ p.lives - 1
    · have hphase : (damagePhase p ebs ens).2.2 = false := by
        simp [damagePhase, hready, hcontact, hdmg, hl]
      rw [hphase]
      simp [not_lt.mpr hl]
    · have hphase : (damagePhase p ebs ens).2.2 = true := by
        simp [damagePhase, hready, hcontact, hdmg, hl]
      rw [hphase]
      simp [lt_of_not_le hl]

theorem life_floor_witness :
    (samplePlayer.invuln_t ≤ 0) ∧
    (((samplePlayer.damage).2 = false ↔ samplePlayer.lives - 1 < 0) ∧
      (samplePlayer.damage).1.lives = samplePlayer.lives - 1 ∧
      (∀ ebs ens : List Rect,
        ((∃ b ∈ ebs, rectsCollide samplePlayer.rect b = true) ∨
          (∃ e ∈ ens, rectsCollide samplePlayer.rect e = true)) →
        ((damagePhase samplePlayer ebs ens).2.2 = true ↔ samplePlayer.lives - 1 < 0)) ∧
      (nHits samplePlayer 5).2 = true ∧
      (nHits samplePlayer 5).1.lives = 0 ∧
      (nHits samplePlayer 6).2 = false) :=
  ⟨by decide, life_floor samplePlayer (by decide)⟩

/-- C3: while invulnerability is strictly positive the damage phase is inert;
when it is not positive and the player overlaps at least one hostile bullet or
enemy body, exactly one life is lost no matter how many simultaneous contacts
occur, every hostile bullet overlapping the player is destroyed, the
invulnerability window is reset to its fixed duration, and when the session
does not end the player's rectangle is exactly its pre-damage one. -/
theorem invuln_blocks_damage (p : Player) (ebs ens : List Rect) :
    (0 < p.invuln_t → damagePhase p ebs ens = (p, ebs, false)) ∧
    (p.invuln_t ≤ 0 →
      ((∃ b ∈ ebs, rectsCollide p.rect b = true) ∨
        (∃ e ∈ ens, rectsCollide p.rect e = true)) →
      (damagePhase p ebs ens).1.lives = p.lives - 1 ∧
      (damagePhase p ebs ens).2.1 = ebs.filter (fun b => !rectsCollide p.rect b) ∧
      (∀ b ∈ ebs, rectsCollide p.rect b = true → b ∉ (damagePhase p ebs ens).2.1) ∧
      (damagePhase p ebs ens).1.invuln_t = INVULN_AFTER_DEATH ∧
      ((damagePhase p ebs ens).2.2 = false →
        (damagePhase p ebs ens).1.rect = p.rect)) := by
  constructor
  · intro h
    simp [damagePhase, not_le.mpr h]
  · intro h0 hc
    have hcontact : ((ebs.any fun b => rectsCollide p.rect b) ||
        (ens.any fun e => rectsCollide p.rect e)) = true := by
      rcases hc with ⟨b, hb, hcb⟩ | ⟨e, hee, hce⟩
      · exact Bool.or_eq_true_iff.mpr (Or.inl (List.any_eq_true.mpr ⟨b, hb, hcb⟩))
      · exact Bool.or_eq_true_iff.mpr (Or.inr (List.any_eq_true.mpr ⟨e, hee, hce⟩))
    have hdmg : p.damage
        = ({ p with lives := p.lives - 1, invuln_t := INVULN_AFTER_DEATH },
            decide (0 ≤ p.lives - 1)) := by
      simp [Player.damage, not_lt.mpr h0]
    have hfilter : ∀ b ∈ ebs, rectsCollide p.rect b = true →
        b ∉ ebs.filter (fun b => !rectsCollide p.rect b) := by
      intro b _ hcb hmem
      have := List.of_mem_filter hmem
      simp [hcb] at this
    by_cases hl : (0 : ℤ) ≤ p.lives - 1
    · have hphase : damagePhase p ebs ens
          = ({ p with lives := p.lives - 1, invuln_t := INVULN_AFTER_DEATH },
             ebs.filter (fun b => !rectsCollide p.rect b), false) := by
        simp [damagePhase, h0, hcontact, hdmg, hl, setCenter_center]
      rw [hphase]
      exact ⟨rfl, rfl, hfilter, rfl, fun _ => rfl⟩
    · have hphase : damagePhase p ebs ens
          = ({ p with lives := p.lives - 1, invuln_t := INVULN_AFTER_DEATH },
             ebs.filter (fun b => !rectsCollide p.rect b), true) := by
        simp [damagePhase, h0, hcontact, hdmg, hl]
      rw [hphase]
      exact ⟨rfl, rfl, hfilter, rfl, fun h => Bool.noConfusion h⟩

theorem invuln_blocks_damage_witness :
    (samplePlayer.invuln_t ≤ 0 ∧
      (∃ b ∈ [(⟨390, 520, 4, 10⟩ : Rect)],
        rectsCollide samplePlayer.rect b = true)) ∧
    ((damagePhase samplePlayer [⟨390, 520, 4, 10⟩] []).1.lives
        = samplePlayer.lives - 1 ∧
      (damagePhase samplePlayer [⟨390, 520, 4, 10⟩] []).2.1
        = [(⟨390, 520, 4, 10⟩ : Rect)].filter
            (fun b => !rectsCollide samplePlayer.rect b) ∧
      (∀ b ∈ [(⟨390, 520, 4, 10⟩ : Rect)], rectsCollide samplePlayer.rect b = true →
        b ∉ (damagePhase samplePlayer [⟨390, 520, 4, 10⟩] []).2.1) ∧
      (damagePhase samplePlayer [⟨390, 520, 4, 10⟩] []).1.invuln_t
        = INVULN_AFTER_DEATH ∧
      ((damagePhase samplePlayer [⟨390, 520, 4, 10⟩] []).2.2 = false →
        (damagePhase samplePlayer [⟨390, 520, 4, 10⟩] []).1.rect
          = samplePlayer.rect)) :=
  ⟨⟨by decide, by decide⟩,
    (invuln_blocks_damage samplePlayer [⟨390, 520, 4, 10⟩] []).2
      (by decide) (by decide)⟩

/-- C8: crossing the active safe-zone boundary on a non-final level advances
the session without ending it — enemies, hostile bullets, pickups and effects
are cleared while friendly bullets survive, the player is recentered with one
second of invulnerability and its lives persist, and the next queued level's
timeline is installed; crossing it on the final queued level ends the session
as a win. -/
theorem safe_zone_transition (st : GameState)
    (hact : st.safe_zone_active = true) (hcross : st.player.rect.y ≤ SAFE_ZONE_Y) :
    (st.level_index + 1 < st.levels.length →
      (safeZoneStep st).outcome = st.outcome ∧
      (safeZoneStep st).level_index = st.level_index + 1 ∧
      (safeZoneStep st).enemies = [] ∧
      (safeZoneStep st).enemy_bullets = [] ∧
      (safeZoneStep st).drops = [] ∧
      (safeZoneStep st).fx = [] ∧
      (safeZoneStep st).player_bullets = st.player_bullets ∧
      (safeZoneStep st).safe_zone_active = false ∧
      (safeZoneStep st).player.invuln_t = 1 ∧
      (safeZoneStep st).player.rect = st.player.rect.setCenter (WIDTH / 2, HEIGHT - 70) ∧
      (safeZoneStep st).player.lives = st.player.lives ∧
      (safeZoneStep st).timeline = mkTimeline (st.levels.getD (st.level_index + 1) [])) ∧
    (¬ st.level_index + 1 < st.levels.length →
      (safeZoneStep st).outcome = .won ∧
      (safeZoneStep st).level_index = st.level_index + 1 ∧
      (safeZoneStep st).enemies = st.enemies ∧
      (safeZoneStep st).player = st.player) := by
  have hstep : safeZoneStep st = nextLevelOrWin st := by
    simp [safeZoneStep, hact, hcross]
  constructor
  · intro hlt
    have hget : st.levels.getD (st.level_index + 1) []
        = st.levels.get ⟨st.level_index + 1, hlt⟩ := by
      rw [List.getD_eq_getElem?_getD, List.getElem?_eq_getElem hlt]
      rfl
    rw [hstep]
    simp only [nextLevelOrWin, loadLevel, dif_pos hlt]
    rw [hget]
    refine ⟨?_, ?_, ?_, ?_, ?_, ?_, ?_, ?_, ?_, ?_, ?_, ?_⟩ <;> trivial
  · intro hge
    rw [hstep]
    simp only [nextLevelOrWin, dif_neg hge]
    refine ⟨?_, ?_, ?_, ?_⟩ <;> trivial

theorem safe_zone_transition_witness :
    (sampleGame.safe_zone_active = true ∧ sampleGame.player.rect.y ≤ SAFE_ZONE_Y ∧
      sampleGame.level_index + 1 < sampleGame.levels.length) ∧
    ((safeZoneStep sampleGame).outcome = sampleGame.outcome ∧
      (safeZoneStep sampleGame).enemies = [] ∧
      (safeZoneStep sampleGame).enemy_bullets = [] ∧
      (safeZoneStep sampleGame).drops = [] ∧
      (safeZoneStep sampleGame).player_bullets = sampleGame.player_bullets ∧
      (safeZoneStep sampleGame).player.invuln_t = 1) :=
  ⟨⟨by decide, by decide, by decide⟩, by
    have h := (safe_zone_transition sampleGame (by decide) (by decide)).1 (by decide)
    exact ⟨h.1, h.2.2.1, h.2.2.2.1, h.2.2.2.2.1, h.2.2.2.2.2.2.1, h.2.2.2.2.2.2.2.2.1⟩⟩

/-- C4 counterexample: for the L-shaped `B` formation of `gridL` (9 cells,
bounding box 5×5) the code computes the spawned hit points from the bounding
box, giving `max 6 (4 + 25 / 2) = 16`, while the claimed area-based formula
gives `max 6 (4 + 9 / 2) = 8`. -/
theorem big_enemy_hp_area_counterexample :
    ((connected_components gridL).map fun c => c.area) = [9] ∧
    ((mkTimeline gridL).events.map fun e => (spawnEnemyOf e).hp) = [16] ∧
    hpSpecArea 9 = 8 ∧ (16 : ℕ) ≠ 8 :=
  ⟨by decide, by decide, by decide, by decide⟩

/-- C4 (amended): a `B`-lettered event within the 12-cell size guard spawns a
big enemy with hit points `max 6 (4 + w_cells * h_cells / 2)` — the floor 4
plus half the bounding-box cell area, with minimum 6; for the 3×3 `B` block the
bounding box coincides with the formation's 9-cell area and the hit points are
`4 + 9 / 2 = 8`. -/
theorem big_enemy_hp_bbox (ev : SpawnEvent)
    (hB : ev.letter.toUpper = 'B') (hw : ev.w_cells ≤ 12) (hh : ev.h_cells ≤ 12) :
    spawnEnemyOf ev = ⟨.big, max 6 (4 + ev.w_cells * ev.h_cells / 2)⟩ ∧
    spawnEnemyOf ev = ⟨.big, bigEnemyHp ev.w_cells ev.h_cells⟩ ∧
    ((connected_components gridBox3).map fun c => (c.letter, c.area)) = [('B', 9)] ∧
    ((mkTimeline gridBox3).events.map fun e => (spawnEnemyOf e).hp) = [8] := by
  have hng : ¬ (12 < ev.w_cells ∨ 12 < ev.h_cells) := by
    push_neg
    exact ⟨hw, hh⟩
  refine ⟨?_, ?_, by decide, by decide⟩ <;>
    simp [spawnEnemyOf, hB, ONLY_EXPLICIT_BOSS, hng, bigEnemyHp]

theorem big_enemy_hp_bbox_witness :
    ((SpawnEvent.mk 0 0 0 3 3 'B' false).letter.toUpper = 'B' ∧
      (SpawnEvent.mk 0 0 0 3 3 'B' false).w_cells ≤ 12 ∧
      (SpawnEvent.mk 0 0 0 3 3 'B' false).h_cells ≤ 12) ∧
    (spawnEnemyOf (SpawnEvent.mk 0 0 0 3 3 'B' false)
        = ⟨.big, max 6 (4 + (SpawnEvent.mk 0 0 0 3 3 'B' false).w_cells
            * (SpawnEvent.mk 0 0 0 3 3 'B' false).h_cells / 2)⟩) :=
  ⟨⟨by decide, by decide, by decide⟩,
    (big_enemy_hp_bbox (SpawnEvent.mk 0 0 0 3 3 'B' false)
      (by decide) (by decide) (by decide)).1⟩

theorem stepRange_self (i : ℕ) (ev : SpawnEvent) : stepRange i i ev = ev := by
  rw [stepRange, if_neg]
  rintro ⟨_, h1, h2⟩
  omega

theorem stepRange_spawned_true (lo hi : ℕ) (ev : SpawnEvent) (h : ev.spawned = true) :
    (stepRange lo hi ev).spawned = true := by
  rw [stepRange, if_neg]
  · exact h
  · rintro ⟨hs, _⟩
    rw [h] at hs
    cases hs

theorem stepRange_compose (lo hi : ℕ) (hlt : lo < hi) (ev : SpawnEvent) :
    stepRange (lo + 1) hi (stepRow lo ev) = stepRange lo hi ev := by
  by_cases h1 : ev.spawned = false ∧ ev.min_row = lo
  · have h2 : stepRow lo ev = ev.setSpawned := by rw [stepRow, if_pos h1]
    have h3 : stepRange (lo + 1) hi ev.setSpawned = ev.setSpawned := by
      rw [stepRange, if_neg]
      rintro ⟨hs, _⟩
      simp [SpawnEvent.setSpawned] at hs
    have h4 : stepRange lo hi ev = ev.setSpawned := by
      rw [stepRange, if_pos ⟨h1.1, by omega, by omega⟩]
    rw [h2, h3, h4]
  · have h2 : stepRow lo ev = ev := by rw [stepRow, if_neg h1]
    rw [h2, stepRange, stepRange]
    by_cases h3 : ev.spawned = false ∧ lo + 1 ≤ ev.min_row ∧ ev.min_row < hi
    · rw [if_pos h3, if_pos ⟨h3.1, by omega, h3.2.2⟩]
    · rw [if_neg h3, if_neg]
      rintro ⟨hs, hge, hlt2⟩
      apply h3
      refine ⟨hs, ?_, hlt2⟩
      rcases Nat.lt_or_ge ev.min_row (lo + 1) with h | h
      · exact absurd ⟨hs, by omega⟩ h1
      · exact h

theorem map_stepRange_self (i : ℕ) (evs : List SpawnEvent) :
    evs.map (stepRange i i) = evs := by
  induction evs with
  | nil => rfl
  | cons ev rest ih => rw [List.map_cons, stepRange_self, ih]

theorem evView_stepRange (lo hi : ℕ) (ev : SpawnEvent) :
    evView (stepRange lo hi ev) = vStep lo hi (evView ev) := by
  by_cases h : ev.spawned = false ∧ lo ≤ ev.min_row ∧ ev.min_row < hi
  · rw [stepRange, if_pos h]
    simp only [evView, vStep, SpawnEvent.setSpawned]
    simp [h.1, h.2.1, h.2.2]
  · rw [stepRange, if_neg h]
    simp only [evView, vStep]
    rw [decide_eq_false h]
    simp

theorem spawnRowAux_fst (target : ℕ) (evs : List SpawnEvent) :
    ∀ i, (spawnRowAux target evs i).1 = evs.map (stepRow target) := by
  induction evs with
  | nil => intro i; rfl
  | cons ev rest ih =>
    intro i
    simp only [spawnRowAux, List.map_cons]
    by_cases h : ev.spawned = false ∧ ev.min_row = target
    · rw [if_pos h, ih (i + 1), stepRow, if_pos h]
    · rw [if_neg h, ih (i + 1), stepRow, if_neg h]

theorem spawnRowAux_snd_mem (target : ℕ) (evs : List SpawnEvent) :
    ∀ i, ∀ q ∈ (spawnRowAux target evs i).2, ∃ k ev, evs[k]? = some ev ∧
      ev.spawned = false ∧ ev.min_row = target ∧ q = (i + k, ev.setSpawned) := by
  induction evs with
  | nil =>
    intro i q hq
    simp [spawnRowAux] at hq
  | cons ev rest ih =>
    intro i q hq
    simp only [spawnRowAux] at hq
    by_cases h : ev.spawned = false ∧ ev.min_row = target
    · rw [if_pos h] at hq
      rcases List.mem_cons.mp hq with he | ht
      · exact ⟨0, ev, by simp, h.1, h.2, by simpa using he⟩
      · obtain ⟨k, ev', hk, h1, h2, h3⟩ := ih (i + 1) q ht
        refine ⟨k + 1, ev', by simpa using hk, h1, h2, ?_⟩
        rw [h3]
        congr 1
        omega
    · rw [if_neg h] at hq
      obtain ⟨k, ev', hk, h1, h2, h3⟩ := ih (i + 1) q hq
      refine ⟨k + 1, ev', by simpa using hk, h1, h2, ?_⟩
      rw [h3]
      congr 1
      omega

theorem spawnRowAux_snd_idx (target : ℕ) (evs : List SpawnEvent) :
    ∀ i, ∀ q ∈ (spawnRowAux target evs i).2, i ≤ q.1 := by
  intro i q hq
  obtain ⟨k, ev, _, _, _, h3⟩ := spawnRowAux_snd_mem target evs i q hq
  rw [h3]
  omega

theorem spawnRowAux_snd_sorted (target : ℕ) (evs : List SpawnEvent) :
    ∀ i, List.Pairwise (fun a b => a.1 < b.1) (spawnRowAux target evs i).2 := by
  induction evs with
  | nil => intro i; simp [spawnRowAux]
  | cons ev rest ih =>
    intro i
    simp only [spawnRowAux]
    by_cases h : ev.spawned = false ∧ ev.min_row = target
    · rw [if_pos h]
      refine List.Pairwise.cons ?_ (ih (i + 1))
      intro q hq
      have := spawnRowAux_snd_idx target rest (i + 1) q hq
      omega
    · rw [if_neg h]
      exact ih (i + 1)

theorem tlLoop_spec (fuel : ℕ) :
    ∀ (tl : LevelTimeline) (log : List (ℕ × SpawnEvent)),
    ⌈tl.row_timer / SPAWN_ROW_MS⌉₊ ≤ fuel + tl.row_index →
    TlLoopSpec tl log (tlLoop fuel tl log) := by
  have hms : (0 : ℚ) < SPAWN_ROW_MS := by norm_num [SPAWN_ROW_MS]
  induction fuel with
  | zero =>
    intro tl log hfuel
    have hfc : ⌊tl.row_timer / SPAWN_ROW_MS⌋₊ ≤ tl.row_index :=
      le_trans (Nat.floor_le_ceil _) (by omega)
    refine ⟨rfl, rfl, rfl, rfl, le_refl _, fun _ => ⟨rfl, rfl⟩, fun _ => ?_⟩
    refine ⟨(max_eq_left hfc).symm, ?_, [], by simp [tlLoop], by simp, by simp⟩
    show tl.events = tl.events.map (stepRange tl.row_index tl.row_index)
    rw [map_stepRange_self]
  | succ fuel ih =>
    intro tl log hfuel
    by_cases hcond : tl.done_spawning = false ∧
        SPAWN_ROW_MS * ((tl.row_index : ℚ) + 1) ≤ tl.row_timer
    · have hstep : tlLoop (fuel + 1) tl log
          = tlLoop fuel
              { tl with row_index := tl.row_index + 1,
                        events := (spawnRowAux tl.row_index tl.events 0).1 }
              (log ++ (spawnRowAux tl.row_index tl.events 0).2) := by
        rw [tlLoop, if_pos hcond]
        simp
      have hidx : (tl.row_index + 1 : ℕ) ≤ ⌊tl.row_timer / SPAWN_ROW_MS⌋₊ := by
        apply Nat.le_floor
        rw [le_div_iff₀ hms, mul_comm]
        push_cast
        exact hcond.2
      set tl2 : LevelTimeline :=
        { tl with row_index := tl.row_index + 1,
                  events := (spawnRowAux tl.row_index tl.events 0).1 } with htl2
      rw [hstep]
      have h2 := ih tl2 (log ++ (spawnRowAux tl.row_index tl.events 0).2) (by
        show ⌈tl.row_timer / SPAWN_ROW_MS⌉₊ ≤ fuel + (tl.row_index + 1)
        omega)
      set r := tlLoop fuel tl2 (log ++ (spawnRowAux tl.row_index tl.events 0).2) with hr
      obtain ⟨e1, e2, e3, e4, e5, _, hnd⟩ := h2
      obtain ⟨hidx2, hevs2, newLog2, hlog2, hnodup2, hq2⟩ := hnd hcond.1
      have ht2t : tl2.row_timer = tl.row_timer := rfl
      have ht2R : tl2.R = tl.R := rfl
      have ht2d : tl2.done_spawning = tl.done_spawning := rfl
      have ht2a : tl2.all_spawned_time = tl.all_spawned_time := rfl
      have ht2i : tl2.row_index = tl.row_index + 1 := rfl
      have ht2e : tl2.events = (spawnRowAux tl.row_index tl.events 0).1 := rfl
      rw [ht2i] at e5
      rw [ht2i, ht2t] at hidx2
      have hidxeq : r.1.row_index = max tl.row_index ⌊tl.row_timer / SPAWN_ROW_MS⌋₊ := by
        rw [hidx2]
        omega
      have hlt' : tl.row_index < r.1.row_index := by
        rw [hidxeq]
        omega
      refine ⟨e1.trans ht2t, e2.trans ht2R, e3.trans ht2d, e4.trans ht2a, by omega,
        ?_, fun _ => ?_⟩
      · intro hdone
        rw [hcond.1] at hdone
        cases hdone
      refine ⟨hidxeq, ?_, ?_⟩
      · rw [hevs2, ht2e, ht2i, spawnRowAux_fst tl.row_index tl.events 0, List.map_map]
        exact List.map_congr_left fun ev _ => stepRange_compose _ _ hlt' ev
      · refine ⟨(spawnRowAux tl.row_index tl.events 0).2 ++ newLog2, ?_, ?_, ?_⟩
        · rw [hlog2, List.append_assoc]
        · rw [List.map_append, List.nodup_append]
          refine ⟨?_, hnodup2, ?_⟩
          · exact (List.pairwise_map).mpr
              ((spawnRowAux_snd_sorted tl.row_index tl.events 0).imp fun h => Nat.ne_of_lt h)
          · intro a ha hb
            simp only [List.mem_map] at ha hb
            obtain ⟨q1, hq1, hq1a⟩ := ha
            obtain ⟨q2, hq2m, hq2a⟩ := hb
            obtain ⟨k1, ev1, hk1, hs1, hm1, he1⟩ :=
              spawnRowAux_snd_mem tl.row_index tl.events 0 q1 hq1
            obtain ⟨ev2, hk2, hs2, _, _, _⟩ := hq2 q2 hq2m
            have hkk : q2.1 = k1 := by
              rw [hq2a, ← hq1a, he1]
              simp
            have hset : tl2.events[q2.1]? = some ev1.setSpawned := by
              rw [ht2e, spawnRowAux_fst tl.row_index tl.events 0, List.getElem?_map,
                hkk, hk1]
              show some (stepRow tl.row_index ev1) = _
              rw [stepRow, if_pos ⟨hs1, hm1⟩]
            rw [hset] at hk2
            have heq : ev1.setSpawned = ev2 := by injection hk2
            rw [← heq] at hs2
            simp [SpawnEvent.setSpawned] at hs2
        · intro q hq
          rcases List.mem_append.mp hq with h1 | h1
          · obtain ⟨k, ev, hk, hs, hm, he⟩ :=
              spawnRowAux_snd_mem tl.row_index tl.events 0 q h1
            refine ⟨ev, by simp [he, hk], hs, by omega, by omega, by rw [he]⟩
          · obtain ⟨ev2, hk2, hs2, hge2, hlt2, he2⟩ := hq2 q h1
            rw [ht2e, spawnRowAux_fst tl.row_index tl.events 0, List.getElem?_map] at hk2
            rw [ht2i] at hge2
            cases hg : tl.events[q.1]? with
            | none =>
              rw [hg] at hk2
              cases hk2
            | some ev =>
              rw [hg] at hk2
              have hstep2 : stepRow tl.row_index ev = ev2 := by injection hk2
              have hnotflip : ev2 = ev := by
                rw [← hstep2, stepRow]
                by_cases hcf : ev.spawned = false ∧ ev.min_row = tl.row_index
                · exfalso
                  rw [← hstep2, stepRow, if_pos hcf] at hs2
                  simp [SpawnEvent.setSpawned] at hs2
                · rw [if_neg hcf]
              rw [hnotflip] at hs2 hge2 hlt2 he2
              exact ⟨ev, rfl, hs2, by omega, hlt2, he2⟩
    · have hstep : tlLoop (fuel + 1) tl log = (tl, log) := by
        rw [tlLoop, if_neg hcond]
      rw [hstep]
      refine ⟨rfl, rfl, rfl, rfl, le_refl _, fun _ => ⟨rfl, rfl⟩, fun hdone => ?_⟩
      have hnt : ¬ SPAWN_ROW_MS * ((tl.row_index : ℚ) + 1) ≤ tl.row_timer := by
        intro hc
        exact hcond ⟨hdone, hc⟩
      have hfl : ⌊tl.row_timer / SPAWN_ROW_MS⌋₊ ≤ tl.row_index := by
        rcases le_or_lt 0 (tl.row_timer / SPAWN_ROW_MS) with hpos | hneg
        · have : tl.row_timer / SPAWN_ROW_MS < (tl.row_index + 1 : ℕ) := by
            rw [div_lt_iff₀ hms]
            push_neg at hnt
            rw [mul_comm]
            exact_mod_cast hnt
          have := (Nat.floor_lt hpos).mpr this
          omega
        · rw [Nat.floor_of_nonpos (le_of_lt hneg)]
          omega
      refine ⟨(max_eq_left hfl).symm, ?_, [], by simp, by simp, by simp⟩
      show tl.events = tl.events.map (stepRange tl.row_index tl.row_index)
      rw [map_stepRange_self]

theorem stepRange_min_row (lo hi : ℕ) (ev : SpawnEvent) :
    (stepRange lo hi ev).min_row = ev.min_row := by
  rw [stepRange]
  by_cases h : ev.spawned = false ∧ lo ≤ ev.min_row ∧ ev.min_row < hi
  · rw [if_pos h]
    rfl
  · rw [if_neg h]

theorem update_spec (tl : LevelTimeline) (dt ticks : ℚ) :
    UpdateSpec tl dt (tl.update dt ticks) := by
  set tl1 : LevelTimeline := { tl with row_timer := tl.row_timer + dt } with htl1
  set L := tlLoop (⌈tl1.row_timer / SPAWN_ROW_MS⌉₊ + 1) tl1 [] with hL
  have h1 : TlLoopSpec tl1 [] L := tlLoop_spec _ tl1 [] (by omega)
  obtain ⟨e1, e2, e3, e4, e5, hdone, hnotdone⟩ := h1
  have ht1t : tl1.row_timer = tl.row_timer + dt := rfl
  have ht1R : tl1.R = tl.R := rfl
  have ht1d : tl1.done_spawning = tl.done_spawning := rfl
  have ht1i : tl1.row_index = tl.row_index := rfl
  have ht1e : tl1.events = tl.events := rfl
  have hupd : tl.update dt ticks
      = if L.1.done_spawning = false ∧ L.1.R ≤ L.1.row_index then
          ({ L.1 with done_spawning := true, all_spawned_time := some ticks }, L.2)
        else (L.1, L.2) := rfl
  by_cases htld : tl.done_spawning = true
  · obtain ⟨hA, hB⟩ := hdone (ht1d.trans htld)
    have hLd : L.1.done_spawning = true := by
      rw [e3, ht1d]
      exact htld
    have hcf : ¬ (L.1.done_spawning = false ∧ L.1.R ≤ L.1.row_index) := by
      rintro ⟨hx, _⟩
      rw [hLd] at hx
      cases hx
    rw [hupd, if_neg hcf]
    refine ⟨e1.trans ht1t, e2.trans ht1R, ?_, ?_, fun _ => ⟨hA, hB⟩, ?_, ?_⟩
    · rw [hA]
    · rw [hA, ht1e]
    · intro hx
      rw [htld] at hx
      cases hx
    · rw [hB]
      simp
  · have hdf : tl.done_spawning = false := by
      revert htld
      cases tl.done_spawning <;> simp
    obtain ⟨hidx2, hevs2, newLog, hlog, hnodup, hq⟩ := hnotdone (ht1d.trans hdf)
    rw [ht1i, ht1t] at hidx2
    rw [ht1e, ht1i] at hevs2
    have hlog' : L.2 = newLog := by
      rw [hlog]
      simp
    have hLd : L.1.done_spawning = false := by
      rw [e3, ht1d]
      exact hdf
    have hLR : L.1.R = tl.R := e2.trans ht1R
    by_cases hc : L.1.done_spawning = false ∧ L.1.R ≤ L.1.row_index
    · rw [hupd, if_pos hc]
      refine ⟨e1.trans ht1t, e2.trans ht1R, ?_, ?_, ?_, fun _ => ?_, ?_⟩
      · show tl.row_index ≤ L.1.row_index
        rw [ht1i] at e5
        exact e5
      · show L.1.events.length = tl.events.length
        rw [hevs2, List.length_map]
      · intro hx
        rw [hdf] at hx
        cases hx
      · refine ⟨hidx2, hevs2, ?_, ?_⟩
        · show (true : Bool) = decide (tl.R ≤ L.1.row_index)
          rw [← hLR]
          simp [hc.2]
        · intro q hqm
          have hqm2 : q ∈ newLog := by
            have hqm1 : q ∈ L.2 := hqm
            rw [hlog'] at hqm1
            exact hqm1
          obtain ⟨ev, hev, hs, hge, hlt, hqe⟩ := hq q hqm2
          rw [ht1e] at hev
          rw [ht1i] at hge
          exact ⟨ev, hev, hs, hge, hlt, hqe⟩
      · show (L.2.map Prod.fst).Nodup
        rw [hlog']
        exact hnodup
    · rw [hupd, if_neg hc]
      have hnR : ¬ L.1.R ≤ L.1.row_index := by
        intro hx
        exact hc ⟨hLd, hx⟩
      refine ⟨e1.trans ht1t, e2.trans ht1R, ?_, ?_, ?_, fun _ => ?_, ?_⟩
      · show tl.row_index ≤ L.1.row_index
        rw [ht1i] at e5
        exact e5
      · show L.1.events.length = tl.events.length
        rw [hevs2, List.length_map]
      · intro hx
        rw [hdf] at hx
        cases hx
      · refine ⟨hidx2, hevs2, ?_, ?_⟩
        · show L.1.done_spawning = decide (tl.R ≤ L.1.row_index)
          rw [hLd, ← hLR]
          simp [hnR]
        · intro q hqm
          have hqm2 : q ∈ newLog := by
            have hqm1 : q ∈ L.2 := hqm
            rw [hlog'] at hqm1
            exact hqm1
          obtain ⟨ev, hev, hs, hge, hlt, hqe⟩ := hq q hqm2
          rw [ht1e] at hev
          rw [ht1i] at hge
          exact ⟨ev, hev, hs, hge, hlt, hqe⟩
      · show (L.2.map Prod.fst).Nodup
        rw [hlog']
        exact hnodup

theorem update_spawned_mono (tl : LevelTimeline) (dt ticks : ℚ) (k : ℕ) :
    ((tl.events[k]?).map fun ev => ev.spawned) = some true →
    (((tl.update dt ticks).1.events[k]?).map fun ev => ev.spawned) = some true := by
  intro h
  obtain ⟨_, _, _, _, hdone, hnotdone, _⟩ := update_spec tl dt ticks
  by_cases hd : tl.done_spawning = true
  · rw [(hdone hd).1]
    exact h
  · have hdf : tl.done_spawning = false := by
      revert hd
      cases tl.done_spawning <;> simp
    obtain ⟨_, hevs, _, _⟩ := hnotdone hdf
    rw [hevs, List.getElem?_map]
    cases hg : tl.events[k]? with
    | none =>
      rw [hg] at h
      cases h
    | some ev =>
      rw [hg] at h
      have hsp : ev.spawned = true := by
        injection h
      exact congrArg some (stepRange_spawned_true _ _ ev hsp)

theorem update_log_spec (tl : LevelTimeline) (dt ticks : ℚ) :
    ∀ q ∈ (tl.update dt ticks).2,
      ∃ ev, tl.events[q.1]? = some ev ∧ ev.spawned = false ∧ q.2 = ev.setSpawned ∧
        q.2.spawned = true ∧ q.2.min_row < (tl.update dt ticks).1.row_index ∧
        (((tl.update dt ticks).1.events[q.1]?).map fun ev => ev.spawned) = some true := by
  intro q hq
  obtain ⟨_, _, _, _, hdone, hnotdone, _⟩ := update_spec tl dt ticks
  by_cases hd : tl.done_spawning = true
  · rw [(hdone hd).2] at hq
    cases hq
  · have hdf : tl.done_spawning = false := by
      revert hd
      cases tl.done_spawning <;> simp
    obtain ⟨hidx, hevs, _, hq'⟩ := hnotdone hdf
    obtain ⟨ev, hev, hs, hge, hlt, hqe⟩ := hq' q hq
    refine ⟨ev, hev, hs, hqe, by rw [hqe]; rfl, ?_, ?_⟩
    · rw [hqe]
      exact hlt
    · rw [hevs, List.getElem?_map, hev]
      show some ((stepRange _ _ ev).spawned) = some true
      rw [stepRange, if_pos ⟨hs, hge, hlt⟩]
      rfl

theorem runUpdates_log_unspawned (dts : List (ℚ × ℚ)) :
    ∀ tl : LevelTimeline, ∀ q ∈ (runUpdates tl dts).2,
      ((tl.events[q.1]?).map fun ev => ev.spawned) = some false := by
  induction dts with
  | nil =>
    intro tl q hq
    simp [runUpdates] at hq
  | cons p rest ih =>
    intro tl q hq
    obtain ⟨dt, ticks⟩ := p
    simp only [runUpdates] at hq
    rcases List.mem_append.mp hq with h1 | h1
    · obtain ⟨ev, hev, hs, _, _, _⟩ := update_log_spec tl dt ticks q h1
      rw [hev]
      simp [hs]
    · have hpost := ih (tl.update dt ticks).1 q h1
      cases hg : tl.events[q.1]? with
      | none =>
        exfalso
        obtain ⟨_, _, _, hlen, _, _, _⟩ := update_spec tl dt ticks
        have hn : (tl.update dt ticks).1.events[q.1]? = none := by
          rw [List.getElem?_eq_none_iff] at hg ⊢
          rw [hlen]
          exact hg
        rw [hn] at hpost
        cases hpost
      | some ev =>
        cases hsv : ev.spawned with
        | false =>
          simp [hsv]
        | true =>
          exfalso
          have hmono := update_spawned_mono tl dt ticks q.1 (by rw [hg]; simp [hsv])
          have : (some true : Option Bool) = some false := hmono.symm.trans hpost
          cases this

/-- C5: every spawn event's `spawned` flag only moves from `false` to `true`
across updates; over any trace of updates each event is materialized at most
once (the logged event indices are distinct); and a materialization happens
only for a previously unspawned event whose trigger row lies strictly below
the post-update row index, leaving the flag set. -/
theorem spawn_once :
    (∀ (tl : LevelTimeline) (dt ticks : ℚ) (k : ℕ),
      ((tl.events[k]?).map fun ev => ev.spawned) = some true →
      (((tl.update dt ticks).1.events[k]?).map fun ev => ev.spawned) = some true) ∧
    (∀ (tl : LevelTimeline) (dts : List (ℚ × ℚ)),
      ((runUpdates tl dts).2.map Prod.fst).Nodup) ∧
    (∀ (tl : LevelTimeline) (dt ticks : ℚ), ∀ q ∈ (tl.update dt ticks).2,
      ∃ ev, tl.events[q.1]? = some ev ∧ ev.spawned = false ∧ q.2 = ev.setSpawned ∧
        q.2.spawned = true ∧ q.2.min_row < (tl.update dt ticks).1.row_index ∧
        (((tl.update dt ticks).1.events[q.1]?).map fun ev => ev.spawned) = some true) := by
  refine ⟨update_spawned_mono, ?_, update_log_spec⟩
  intro tl dts
  induction dts generalizing tl with
  | nil => simp [runUpdates]
  | cons p rest ih =>
    obtain ⟨dt, ticks⟩ := p
    simp only [runUpdates, List.map_append]
    rw [List.nodup_append]
    refine ⟨(update_spec tl dt ticks).2.2.2.2.2.2, ih (tl.update dt ticks).1, ?_⟩
    intro a ha hb
    simp only [List.mem_map] at ha hb
    obtain ⟨q1, hq1, hq1a⟩ := ha
    obtain ⟨q2, hq2, hq2a⟩ := hb
    obtain ⟨ev1, _, _, _, _, _, hpost⟩ := update_log_spec tl dt ticks q1 hq1
    have hpre := runUpdates_log_unspawned rest (tl.update dt ticks).1 q2 hq2
    rw [hq2a, ← hq1a] at hpre
    have : (some true : Option Bool) = some false := hpost.symm.trans hpre
    cases this

theorem spawn_once_witness :
    (((LevelTimeline.mk 1 [SpawnEvent.mk 0 0 0 1 1 'A' true] 0 0 false none).events[0]?).map
        (fun ev => ev.spawned)) = some true ∧
    ((((LevelTimeline.mk 1 [SpawnEvent.mk 0 0 0 1 1 'A' true] 0 0 false none).update 0 0).1.events[0]?).map
        (fun ev => ev.spawned)) = some true :=
  ⟨by decide,
    spawn_once.1 (LevelTimeline.mk 1 [SpawnEvent.mk 0 0 0 1 1 'A' true] 0 0 false none)
      0 0 0 (by decide)⟩

/-- C2: for the grid `"S.."`, `"..."`, `".K."` with the 800 ms row duration,
after a 1600 ms update exactly the S-row formation has spawned and the K-row
formation has not, and spawning is not done; after 800 ms more both have
spawned and `done_spawning` is true. In general a single update call whose
accumulated time crosses several row thresholds advances the row index to
`max(row_index, ⌊timer/row_ms⌋)` — every crossed threshold — and preserves the
invariant that every event of a completed row has spawned, skipping none. -/
theorem timeline_schedule :
    (((mkTimeline gridSK).update 1600 0).1.events.map evView
        = [('S', 0, true), ('K', 2, false)] ∧
      ((mkTimeline gridSK).update 1600 0).1.done_spawning = false) ∧
    ((((mkTimeline gridSK).update 1600 0).1.update 800 0).1.events.map evView
        = [('S', 0, true), ('K', 2, true)] ∧
      (((mkTimeline gridSK).update 1600 0).1.update 800 0).1.done_spawning = true) ∧
    (∀ (tl : LevelTimeline) (dt ticks : ℚ),
      TimelineInv tl → TimelineInv (tl.update dt ticks).1) ∧
    (∀ (tl : LevelTimeline) (dt ticks : ℚ), tl.done_spawning = false →
      (tl.update dt ticks).1.row_index
        = max tl.row_index ⌊(tl.row_timer + dt) / SPAWN_ROW_MS⌋₊) := by
  have hgenIdx : ∀ (tl : LevelTimeline) (dt ticks : ℚ), tl.done_spawning = false →
      (tl.update dt ticks).1.row_index
        = max tl.row_index ⌊(tl.row_timer + dt) / SPAWN_ROW_MS⌋₊ := by
    intro tl dt ticks hdf
    exact ((update_spec tl dt ticks).2.2.2.2.2.1 hdf).1
  have hgenInv : ∀ (tl : LevelTimeline) (dt ticks : ℚ),
      TimelineInv tl → TimelineInv (tl.update dt ticks).1 := by
    intro tl dt ticks hinv ev' hmem hlt
    obtain ⟨_, _, _, _, hdone, hnotdone, _⟩ := update_spec tl dt ticks
    by_cases hd : tl.done_spawning = true
    · have hmem' : ev' ∈ tl.events := by
        rw [(hdone hd).1] at hmem
        exact hmem
      have hlt' : ev'.min_row < tl.row_index := by
        rw [(hdone hd).1] at hlt
        exact hlt
      exact hinv ev' hmem' hlt'
    · have hdf : tl.done_spawning = false := by
        revert hd
        cases tl.done_spawning <;> simp
      obtain ⟨hidx, hevs, _, _⟩ := hnotdone hdf
      rw [hevs] at hmem
      obtain ⟨ev, hev, hevEq⟩ := List.mem_map.mp hmem
      by_cases hcf : ev.spawned = false ∧ tl.row_index ≤ ev.min_row ∧
          ev.min_row < (tl.update dt ticks).1.row_index
      · rw [← hevEq, stepRange, if_pos hcf]
        rfl
      · rw [← hevEq, stepRange, if_neg hcf]
        have hm : ev.min_row < (tl.update dt ticks).1.row_index := by
          rw [← hevEq, stepRange_min_row] at hlt
          exact hlt
        by_cases hsv : ev.spawned = true
        · exact hsv
        · have hsf : ev.spawned = false := by
            revert hsv
            cases ev.spawned <;> simp
          rcases Nat.lt_or_ge ev.min_row tl.row_index with h | h
          · exact hinv ev hev h
          · exact absurd ⟨hsf, h, hm⟩ hcf
  have hrt : (mkTimeline gridSK).row_timer = 0 := rfl
  have hri : (mkTimeline gridSK).row_index = 0 := rfl
  have hR : (mkTimeline gridSK).R = 3 := rfl
  have hv0 : (mkTimeline gridSK).events.map evView = [('S', 0, false), ('K', 2, false)] := by
    decide
  obtain ⟨t1, R1, _, _, _, nd1, _⟩ := update_spec (mkTimeline gridSK) 1600 0
  obtain ⟨i1, ev1, d1, _⟩ := nd1 rfl
  have hfloor1 : ⌊((mkTimeline gridSK).row_timer + 1600) / SPAWN_ROW_MS⌋₊ = 2 := by
    rw [hrt]
    have h2 : ((0 : ℚ) + 1600) / SPAWN_ROW_MS = 2 := by norm_num [SPAWN_ROW_MS]
    rw [h2]
    simp
  have hidx1 : ((mkTimeline gridSK).update 1600 0).1.row_index = 2 := by
    rw [i1, hri, hfloor1]
    decide
  have hevs1 : ((mkTimeline gridSK).update 1600 0).1.events
      = (mkTimeline gridSK).events.map (stepRange 0 2) := by
    rw [ev1, hri, hidx1]
  have hview1 : ((mkTimeline gridSK).update 1600 0).1.events.map evView
      = [('S', 0, true), ('K', 2, false)] := by
    rw [hevs1, List.map_map]
    have hcomp : evView ∘ stepRange 0 2 = vStep 0 2 ∘ evView :=
      funext fun ev => evView_stepRange 0 2 ev
    rw [hcomp, ← List.map_map, hv0]
    decide
  have hdone1 : ((mkTimeline gridSK).update 1600 0).1.done_spawning = false := by
    rw [d1, hidx1, hR]
    decide
  obtain ⟨t2, R2, _, _, _, nd2, _⟩ := update_spec ((mkTimeline gridSK).update 1600 0).1 800 0
  obtain ⟨i2, ev2, d2, _⟩ := nd2 hdone1
  have hfloor2 : ⌊(((mkTimeline gridSK).update 1600 0).1.row_timer + 800) / SPAWN_ROW_MS⌋₊ = 3 := by
    rw [t1, hrt]
    have h3 : (((0 : ℚ) + 1600) + 800) / SPAWN_ROW_MS = 3 := by norm_num [SPAWN_ROW_MS]
    rw [h3]
    simp
  have hidx2 : (((mkTimeline gridSK).update 1600 0).1.update 800 0).1.row_index = 3 := by
    rw [i2, hidx1, hfloor2]
    decide
  have hevs2 : (((mkTimeline gridSK).update 1600 0).1.update 800 0).1.events
      = ((mkTimeline gridSK).update 1600 0).1.events.map (stepRange 2 3) := by
    rw [ev2, hidx1, hidx2]
  have hview2 : (((mkTimeline gridSK).update 1600 0).1.update 800 0).1.events.map evView
      = [('S', 0, true), ('K', 2, true)] := by
    rw [hevs2, List.map_map]
    have hcomp : evView ∘ stepRange 2 3 = vStep 2 3 ∘ evView :=
      funext fun ev => evView_stepRange 2 3 ev
    rw [hcomp, ← List.map_map, hview1]
    decide
  have hdone2 : (((mkTimeline gridSK).update 1600 0).1.update 800 0).1.done_spawning = true := by
    rw [d2, hidx2, R1, hR]
    decide
  exact ⟨⟨hview1, hdone1⟩, ⟨hview2, hdone2⟩, hgenInv, hgenIdx⟩

theorem timeline_schedule_witness :
    (TimelineInv (mkTimeline gridSK) ∧ (mkTimeline gridSK).done_spawning = false) ∧
    TimelineInv ((mkTimeline gridSK).update 1600 0).1 ∧
    ((mkTimeline gridSK).update 5 0).1.row_index
      = max (mkTimeline gridSK).row_index
          ⌊((mkTimeline gridSK).row_timer + 5) / SPAWN_ROW_MS⌋₊ :=
  ⟨⟨by decide, by decide⟩,
    timeline_schedule.2.2.1 (mkTimeline gridSK) 1600 0 (by decide),
    timeline_schedule.2.2.2 (mkTimeline gridSK) 5 0 (by decide)⟩

theorem foldlMin_mem (xs : List ℕ) : ∀ x : ℕ, xs.foldl min x ∈ x :: xs := by
  induction xs with
  | nil => intro x; simp
  | cons y ys ih =>
    intro x
    have h := ih (min x y)
    rcases List.mem_cons.mp h with h1 | h1
    · rw [List.foldl_cons, h1]
      have hch : min x y = x ∨ min x y = y := by omega
      rcases hch with hm | hm <;> rw [hm] <;> simp
    · rw [List.foldl_cons]
      exact List.mem_cons.mpr (Or.inr (List.mem_cons.mpr (Or.inr h1)))

theorem foldlMin_le (xs : List ℕ) :
    ∀ x : ℕ, xs.foldl min x ≤ x ∧ ∀ y ∈ xs, xs.foldl min x ≤ y := by
  induction xs with
  | nil => intro x; simp
  | cons y ys ih =>
    intro x
    obtain ⟨h1, h2⟩ := ih (min x y)
    rw [List.foldl_cons]
    refine ⟨le_trans h1 (min_le_left x y), ?_⟩
    intro z hz
    rcases List.mem_cons.mp hz with rfl | hz'
    · exact le_trans h1 (min_le_right x z)
    · exact h2 z hz'

theorem listMin_mem (l : List ℕ) (h : l ≠ []) : listMin l ∈ l := by
  cases l with
  | nil => exact absurd rfl h
  | cons x xs => exact foldlMin_mem xs x

theorem listMin_le (l : List ℕ) : ∀ x ∈ l, listMin l ≤ x := by
  cases l with
  | nil => simp
  | cons x xs =>
    intro y hy
    rcases List.mem_cons.mp hy with rfl | hy'
    · exact (foldlMin_le xs y).1
    · exact (foldlMin_le xs x).2 y hy'

theorem listMin_eq (l : List ℕ) (m : ℕ) (hm : m ∈ l) (hlb : ∀ x ∈ l, m ≤ x) :
    listMin l = m :=
  le_antisymm (listMin_le l m hm) (hlb _ (listMin_mem l (List.ne_nil_of_mem hm)))

theorem mem_univCells (R C : ℕ) (p : Cell) : p ∈ univCells R C ↔ Inb R C p := by
  simp [univCells, Inb, Finset.mem_product]

theorem mem_rowMajor (R C : ℕ) (p : Cell) : p ∈ rowMajor R C ↔ Inb R C p := by
  simp only [rowMajor, List.mem_flatten, List.mem_map, List.mem_range, Inb]
  constructor
  · rintro ⟨l, ⟨r, hr, rfl⟩, hp⟩
    obtain ⟨c, hc, rfl⟩ := List.mem_map.mp hp
    exact ⟨hr, List.mem_range.mp hc⟩
  · rintro ⟨h1, h2⟩
    exact ⟨(List.range C).map fun c => (p.1, c), ⟨p.1, h1, rfl⟩,
      List.mem_map.mpr ⟨p.2, List.mem_range.mpr h2, rfl⟩⟩

theorem rowMajor_sorted (R C : ℕ) :
    List.Pairwise (fun a b => scanIdx C a < scanIdx C b) (rowMajor R C) := by
  induction R with
  | zero => simp [rowMajor]
  | succ R ih =>
    have hsplit : rowMajor (R + 1) C
        = rowMajor R C ++ (List.range C).map fun c => (R, c) := by
      rw [rowMajor, rowMajor, List.range_succ, List.map_append]
      simp
    rw [hsplit, List.pairwise_append]
    refine ⟨ih, ?_, ?_⟩
    · rw [List.pairwise_map]
      refine (List.pairwise_lt_range C).imp ?_
      intro a b hab
      simp only [scanIdx]
      omega
    · intro a ha b hb
      have hA := (mem_rowMajor R C a).mp ha
      obtain ⟨c, hc, rfl⟩ := List.mem_map.mp hb
      have hcC := List.mem_range.mp hc
      have h1 : (a.1 + 1) * C ≤ R * C := Nat.mul_le_mul_right C hA.1
      have h2 : a.1 * C + C = (a.1 + 1) * C := (Nat.succ_mul a.1 C).symm
      have e1 : scanIdx C a = a.1 * C + a.2 := rfl
      have e2 : scanIdx C (R, c) = R * C + c := rfl
      have := hA.2
      omega

theorem adj_symm {g : Grid} {R C : ℕ} {p q : Cell} (h : Adj g R C p q) : Adj g R C q p := by
  obtain ⟨h1, h2, h3, h4⟩ := h
  refine ⟨h2, h1, h3.symm, ?_⟩
  rcases h4 with ⟨ha, hb⟩ | ⟨ha, hb⟩
  · exact Or.inl ⟨ha.symm, hb.symm⟩
  · exact Or.inr ⟨ha.symm, hb.symm⟩

theorem reach_symm (g : Grid) (R C : ℕ) : Symmetric (Reach g R C) :=
  Relation.ReflTransGen.symmetric fun _ _ h => adj_symm h

theorem stepsInv_refl (g : Grid) (R C : ℕ) (ch : Char) (src : Cell)
    (vs : Finset Cell × List Cell) : StepsInv g R C ch src vs vs := by
  refine ⟨[], by simp, by simp, by simp, by simp, by simp, by simp⟩

theorem stepsInv_comp {g : Grid} {R C : ℕ} {ch : Char} {src : Cell}
    {vs vs' vs'' : Finset Cell × List Cell}
    (h1 : StepsInv g R C ch src vs vs') (h2 : StepsInv g R C ch src vs' vs'') :
    StepsInv g R C ch src vs vs'' := by
  obtain ⟨n1, f1, s1, nd1, fr1, g1, b1⟩ := h1
  obtain ⟨n2, f2, s2, nd2, fr2, g2, b2⟩ := h2
  refine ⟨n2 ++ n1, ?_, ?_, ?_, ?_, ?_, ?_⟩
  · rw [f2, f1]
    ext p
    simp only [Finset.mem_union, List.mem_toFinset, List.mem_append]
    tauto
  · rw [s2, s1, List.append_assoc]
  · rw [List.nodup_append]
    refine ⟨nd2, nd1, ?_⟩
    intro a ha hb
    have := fr2 a ha
    rw [f1] at this
    exact this (Finset.mem_union_right _ (List.mem_toFinset.mpr hb))
  · intro q hq
    rcases List.mem_append.mp hq with h | h
    · intro hv
      exact fr2 q h (by rw [f1]; exact Finset.mem_union_left _ hv)
    · exact fr1 q h
  · intro q hq
    rcases List.mem_append.mp hq with h | h
    · exact g2 q h
    · exact g1 q h
  · intro q hq
    rcases List.mem_append.mp hq with h | h
    · exact b2 q h
    · exact b1 q h

theorem tryPush_steps (g : Grid) (ch : Char) (R C : ℕ) (src : Cell) (nr nc : ℤ)
    (vs : Finset Cell × List Cell)
    (hnbr : 0 ≤ nr → nr < (R : ℤ) → 0 ≤ nc → nc < (C : ℤ) →
      Nbr4 src (nr.toNat, nc.toNat)) :
    StepsInv g R C ch src vs (tryPush g ch R C nr nc vs) := by
  rw [tryPush]
  by_cases h : 0 ≤ nr ∧ nr < (R : ℤ) ∧ 0 ≤ nc ∧ nc < (C : ℤ) ∧
      (nr.toNat, nc.toNat) ∉ vs.1 ∧ gget g nr.toNat nc.toNat = ch
  · rw [if_pos h]
    obtain ⟨h1, h2, h3, h4, h5, h6⟩ := h
    refine ⟨[(nr.toNat, nc.toNat)], ?_, rfl, by simp, ?_, ?_, ?_⟩
    · ext p
      simp only [Finset.mem_insert, Finset.mem_union, List.mem_toFinset,
        List.mem_singleton]
      tauto
    · intro q hq
      rw [List.mem_singleton.mp hq]
      exact h5
    · intro q hq
      rw [List.mem_singleton.mp hq]
      refine ⟨⟨?_, ?_⟩, h6⟩ <;> omega
    · intro q hq
      rw [List.mem_singleton.mp hq]
      exact hnbr h1 h2 h3 h4
  · rw [if_neg h]
    exact stepsInv_refl g R C ch src vs

theorem dfsLoop_spec (g : Grid) (R C : ℕ) (ch : Char) (vis0 : Finset Cell) (seed : Cell) :
    ∀ (fuel : ℕ) (stack : List Cell) (visited : Finset Cell) (cells : List Cell),
    DfsInv g R C ch vis0 seed stack visited cells →
    stack.length + 2 * ((univCells R C \ visited).card) < fuel →
    DfsInv g R C ch vis0 seed [] (dfsLoop g ch R C fuel stack visited cells).1
        (dfsLoop g ch R C fuel stack visited cells).2 ∧
    ∀ p : Cell, (p ∈ stack ∨ p ∈ cells) → p ∈ (dfsLoop g ch R C fuel stack visited cells).2 := by
  intro fuel
  induction fuel with
  | zero =>
    intro stack visited cells _ hm
    exact absurd hm (by omega)
  | succ fuel ih =>
    intro stack visited cells hinv hm
    cases stack with
    | nil =>
      refine ⟨hinv, ?_⟩
      intro p hp
      rcases hp with hp | hp
      · cases hp
      · exact hp
    | cons hd rest =>
      obtain ⟨rr, cc⟩ := hd
      obtain ⟨hvis, hnd, hfresh, hgood, hreach⟩ := hinv
      have hS : StepsInv g R C ch (rr, cc) (visited, rest)
          (tryPush g ch R C (rr : ℤ) ((cc : ℤ) - 1)
            (tryPush g ch R C (rr : ℤ) ((cc : ℤ) + 1)
              (tryPush g ch R C ((rr : ℤ) - 1) (cc : ℤ)
                (tryPush g ch R C ((rr : ℤ) + 1) (cc : ℤ) (visited, rest))))) := by
        refine stepsInv_comp (stepsInv_comp (stepsInv_comp
          (tryPush_steps g ch R C (rr, cc) ((rr : ℤ) + 1) (cc : ℤ) (visited, rest) ?_)
          (tryPush_steps g ch R C (rr, cc) ((rr : ℤ) - 1) (cc : ℤ) _ ?_))
          (tryPush_steps g ch R C (rr, cc) (rr : ℤ) ((cc : ℤ) + 1) _ ?_))
          (tryPush_steps g ch R C (rr, cc) (rr : ℤ) ((cc : ℤ) - 1) _ ?_)
        · intro h1 h2 h3 h4
          refine Or.inr ⟨?_, Or.inl ?_⟩
          · show cc = ((cc : ℤ)).toNat
            omega
          · show rr + 1 = ((rr : ℤ) + 1).toNat
            omega
        · intro h1 h2 h3 h4
          refine Or.inr ⟨?_, Or.inr ?_⟩
          · show cc = ((cc : ℤ)).toNat
            omega
          · show ((rr : ℤ) - 1).toNat + 1 = rr
            omega
        · intro h1 h2 h3 h4
          refine Or.inl ⟨?_, Or.inl ?_⟩
          · show rr = ((rr : ℤ)).toNat
            omega
          · show cc + 1 = ((cc : ℤ) + 1).toNat
            omega
        · intro h1 h2 h3 h4
          refine Or.inl ⟨?_, Or.inr ?_⟩
          · show rr = ((rr : ℤ)).toNat
            omega
          · show ((cc : ℤ) - 1).toNat + 1 = cc
            omega
      set s4 := tryPush g ch R C (rr : ℤ) ((cc : ℤ) - 1)
          (tryPush g ch R C (rr : ℤ) ((cc : ℤ) + 1)
            (tryPush g ch R C ((rr : ℤ) - 1) (cc : ℤ)
              (tryPush g ch R C ((rr : ℤ) + 1) (cc : ℤ) (visited, rest)))) with hs4
      obtain ⟨news, hfin, hstk0, hndN, hfrN, hgN, hbN⟩ := hS
      have hstk : s4.2 = news ++ rest := hstk0
      have hstep : dfsLoop g ch R C (fuel + 1) ((rr, cc) :: rest) visited cells
          = dfsLoop g ch R C fuel s4.2 s4.1 (cells ++ [(rr, cc)]) := rfl
      rw [hstep]
      have hmemvis : ∀ p : Cell, p ∈ visited ↔
          p ∈ vis0 ∨ p ∈ (rr, cc) :: rest ∨ p ∈ cells := by
        intro p
        rw [hvis]
        simp only [Finset.mem_union, List.mem_toFinset]
        tauto
      have hheadvis : (rr, cc) ∈ visited := by
        rw [hmemvis]
        exact Or.inr (Or.inl (List.mem_cons_self _ _))
      have hrestvis : ∀ p ∈ rest, p ∈ visited := by
        intro p hp
        rw [hmemvis]
        exact Or.inr (Or.inl (List.mem_cons_of_mem _ hp))
      have hcellsvis : ∀ p ∈ cells, p ∈ visited := by
        intro p hp
        rw [hmemvis]
        exact Or.inr (Or.inr hp)
      have hndOld := hnd
      rw [List.cons_append, List.nodup_cons, List.nodup_append] at hndOld
      obtain ⟨hhead, hrestnd, hcellsnd, hrcdisj⟩ := hndOld
      have hgoodHead : GoodCell g R C ch (rr, cc) :=
        hgood (rr, cc) (List.mem_append.mpr (Or.inl (List.mem_cons_self _ _)))
      have hinv2 : DfsInv g R C ch vis0 seed s4.2 s4.1 (cells ++ [(rr, cc)]) := by
        refine ⟨?_, ?_, ?_, ?_, ?_⟩
        · rw [hfin, hstk, hvis]
          ext p
          simp only [Finset.mem_union, List.mem_toFinset, List.mem_append,
            List.mem_cons, List.mem_singleton]
          tauto
        · rw [hstk]
          have hnewsNotail : ∀ q ∈ news, q ∉ rest ∧ q ∉ cells ∧ q ≠ (rr, cc) := by
            intro q hq
            have hqv := hfrN q hq
            refine ⟨fun hc => hqv (hrestvis q hc), fun hc => hqv (hcellsvis q hc),
              fun hc => hqv (hc ▸ hheadvis)⟩
          rw [List.nodup_append]
          refine ⟨?_, ?_, ?_⟩
          · rw [List.nodup_append]
            refine ⟨hndN, hrestnd, ?_⟩
            intro q hq hq2
            exact (hnewsNotail q hq).1 hq2
          · rw [List.nodup_append]
            refine ⟨hcellsnd, by simp, ?_⟩
            intro q hq hq2
            rw [List.mem_singleton.mp hq2] at hq
            exact hhead (List.mem_append.mpr (Or.inr hq))
          · intro q hq hq2
            rcases List.mem_append.mp hq with h | h
            · rcases List.mem_append.mp hq2 with h2 | h2
              · exact (hnewsNotail q h).2.1 h2
              · exact (hnewsNotail q h).2.2 (List.mem_singleton.mp h2)
            · rcases List.mem_append.mp hq2 with h2 | h2
              · exact hrcdisj h h2
              · rw [List.mem_singleton.mp h2] at h
                exact hhead (List.mem_append.mpr (Or.inl h))
        · intro p hp
          rcases List.mem_append.mp hp with hp | hp
          · rw [hstk] at hp
            rcases List.mem_append.mp hp with hp | hp
            · intro hv
              exact hfrN p hp (by rw [hmemvis]; exact Or.inl hv)
            · exact hfresh p (List.mem_append.mpr (Or.inl (List.mem_cons_of_mem _ hp)))
          · rcases List.mem_append.mp hp with hp | hp
            · exact hfresh p (List.mem_append.mpr (Or.inr hp))
            · rw [List.mem_singleton.mp hp]
              exact hfresh (rr, cc) (List.mem_append.mpr (Or.inl (List.mem_cons_self _ _)))
        · intro p hp
          rcases List.mem_append.mp hp with hp | hp
          · rw [hstk] at hp
            rcases List.mem_append.mp hp with hp | hp
            · exact hgN p hp
            · exact hgood p (List.mem_append.mpr (Or.inl (List.mem_cons_of_mem _ hp)))
          · rcases List.mem_append.mp hp with hp | hp
            · exact hgood p (List.mem_append.mpr (Or.inr hp))
            · rw [List.mem_singleton.mp hp]
              exact hgoodHead
        · intro p hp
          rcases List.mem_append.mp hp with hp | hp
          · rw [hstk] at hp
            rcases List.mem_append.mp hp with hp | hp
            · have hreachHead : Reach g R C seed (rr, cc) :=
                hreach (rr, cc) (List.mem_append.mpr (Or.inl (List.mem_cons_self _ _)))
              have hgp := hgN p hp
              refine Relation.ReflTransGen.tail hreachHead ?_
              exact ⟨hgoodHead.1, hgp.1, by rw [hgoodHead.2, hgp.2], hbN p hp⟩
            · exact hreach p (List.mem_append.mpr (Or.inl (List.mem_cons_of_mem _ hp)))
          · rcases List.mem_append.mp hp with hp | hp
            · exact hreach p (List.mem_append.mpr (Or.inr hp))
            · rw [List.mem_singleton.mp hp]
              exact hreach (rr, cc) (List.mem_append.mpr (Or.inl (List.mem_cons_self _ _)))
      have hcard : (univCells R C \ s4.1).card + news.length = (univCells R C \ visited).card := by
        have hsub : news.toFinset ⊆ univCells R C \ visited := by
          intro q hq
          rw [List.mem_toFinset] at hq
          rw [Finset.mem_sdiff, mem_univCells]
          exact ⟨(hgN q hq).1, hfrN q hq⟩
        have hdd : univCells R C \ s4.1 = (univCells R C \ visited) \ news.toFinset := by
          rw [hfin]
          ext p
          simp only [Finset.mem_sdiff, Finset.mem_union]
          tauto
        rw [hdd, Finset.card_sdiff hsub, List.toFinset_card_of_nodup hndN]
        have := Finset.card_le_card hsub
        rw [List.toFinset_card_of_nodup hndN] at this
        omega
      have hm2 : s4.2.length + 2 * ((univCells R C \ s4.1).card) < fuel := by
        rw [hstk, List.length_append]
        simp only [List.length_cons] at hm
        omega
      obtain ⟨hfin2, hmem2⟩ := ih s4.2 s4.1 (cells ++ [(rr, cc)]) hinv2 hm2
      refine ⟨hfin2, ?_⟩
      intro p hp
      rcases hp with hp | hp
      · rcases List.mem_cons.mp hp with h | h
        · rw [h]
          exact hmem2 (rr, cc)
            (Or.inr (List.mem_append.mpr (Or.inr (List.mem_singleton.mpr rfl))))
        · exact hmem2 p (Or.inl (by rw [hstk]; exact List.mem_append.mpr (Or.inr h)))
      · exact hmem2 p (Or.inr (List.mem_append.mpr (Or.inl hp)))

theorem ccLoop_spec (g : Grid) (R C : ℕ) :
    ∀ (todo : List Cell) (visited : Finset Cell) (comps : List Comp),
    CCInv g R C todo visited comps →
    CCInv g R C [] (ccLoop g R C todo visited comps).1 (ccLoop g R C todo visited comps).2 := by
  intro todo
  induction todo with
  | nil =>
    intro visited comps hinv
    exact hinv
  | cons hd rest ih =>
    obtain ⟨r, c⟩ := hd
    intro visited comps hinv
    obtain ⟨hvis, hgood, hblank, hne, hnd, hdisj, hreach, hcover, htodoS, htodoI,
      hsep, hcscan, hfirst⟩ := hinv
    by_cases hg : blankChar (gget g r c) = false ∧ (r, c) ∉ visited
    · have hstep : ccLoop g R C ((r, c) :: rest) visited comps
          = ccLoop g R C rest
              (dfsLoop g (gget g r c) R C (2 * (R * C) + 2) [(r, c)]
                (insert (r, c) visited) []).1
              (comps ++ [mkComp (gget g r c)
                (dfsLoop g (gget g r c) R C (2 * (R * C) + 2) [(r, c)]
                  (insert (r, c) visited) []).2]) := by
        rw [ccLoop, if_pos hg]
      rw [hstep]
      set dfs := dfsLoop g (gget g r c) R C (2 * (R * C) + 2) [(r, c)]
        (insert (r, c) visited) [] with hdfs
      have hInb : Inb R C (r, c) := htodoI (r, c) (List.mem_cons_self _ _)
      have hinv0 : DfsInv g R C (gget g r c) visited (r, c) [(r, c)]
          (insert (r, c) visited) [] := by
        refine ⟨?_, by simp, ?_, ?_, ?_⟩
        · ext p
          simp only [Finset.mem_insert, Finset.mem_union, List.mem_toFinset,
            List.mem_singleton, List.toFinset_nil, Finset.not_mem_empty]
          tauto
        · intro p hp
          rw [show p = (r, c) from by simpa using hp]
          exact hg.2
        · intro p hp
          rw [show p = (r, c) from by simpa using hp]
          exact ⟨hInb, rfl⟩
        · intro p hp
          rw [show p = (r, c) from by simpa using hp]
          exact Relation.ReflTransGen.refl
      have hfuel : ([(r, c)] : List Cell).length
          + 2 * ((univCells R C \ insert (r, c) visited).card) < 2 * (R * C) + 2 := by
        have h1 : (univCells R C \ insert (r, c) visited).card ≤ (univCells R C).card :=
          Finset.card_le_card Finset.sdiff_subset
        have h2 : (univCells R C).card = R * C := by
          rw [univCells, Finset.card_product]
          simp
        simp only [List.length_singleton]
        omega
      obtain ⟨⟨fvis, fnd, ffresh, fgood, freach⟩, fmem⟩ :=
        dfsLoop_spec g R C (gget g r c) visited (r, c) (2 * (R * C) + 2)
          [(r, c)] (insert (r, c) visited) [] hinv0 hfuel
      have hseedmem : (r, c) ∈ dfs.2 := fmem (r, c) (Or.inl (List.mem_singleton.mpr rfl))
      have fvis' : ∀ p : Cell, p ∈ dfs.1 ↔ p ∈ visited ∨ p ∈ dfs.2 := by
        intro p
        rw [fvis]
        simp [List.mem_toFinset]
      have ffresh' : ∀ p ∈ dfs.2, p ∉ visited := fun p hp =>
        ffresh p (List.mem_append.mpr (Or.inr hp))
      have fgood' : ∀ p ∈ dfs.2, GoodCell g R C (gget g r c) p := fun p hp =>
        fgood p (List.mem_append.mpr (Or.inr hp))
      have freach' : ∀ p ∈ dfs.2, Reach g R C (r, c) p := fun p hp =>
        freach p (List.mem_append.mpr (Or.inr hp))
      have fnd' : dfs.2.Nodup := by simpa using fnd
      have hNB : ∀ p ∈ dfs.2, NonBlank g p := by
        intro p hp
        show blankChar (gget g p.1 p.2) = false
        rw [(fgood' p hp).2]
        exact hg.1
      have hscanmin : ∀ p ∈ dfs.2, scanIdx C (r, c) ≤ scanIdx C p := by
        intro p hp
        rcases eq_or_ne p (r, c) with rfl | hpne
        · exact le_refl _
        · rcases hcover p (fgood' p hp).1 (hNB p hp) with hv | ht
          · exact absurd hv (ffresh' p hp)
          · rcases List.mem_cons.mp ht with h | h
            · exact absurd h hpne
            · exact le_of_lt ((List.pairwise_cons.mp htodoS).1 p h)
      have hminScan : minScan C (mkComp (gget g r c) dfs.2) = scanIdx C (r, c) := by
        apply listMin_eq
        · exact List.mem_map.mpr ⟨(r, c), hseedmem, rfl⟩
        · intro x hx
          obtain ⟨p, hp, rfl⟩ := List.mem_map.mp hx
          exact hscanmin p hp
      have hrowbound : ∀ p ∈ dfs.2, r ≤ p.1 := by
        intro p hp
        by_contra hlt
        have h1 : (p.1 + 1) * C ≤ r * C := Nat.mul_le_mul_right C (by omega)
        have h2 : p.1 * C + C = (p.1 + 1) * C := (Nat.succ_mul p.1 C).symm
        have e1 : scanIdx C (r, c) = r * C + c := rfl
        have e2 : scanIdx C p = p.1 * C + p.2 := rfl
        have h3 := hscanmin p hp
        have h4 : p.2 < C := (fgood' p hp).1.2
        have h5 : c < C := hInb.2
        omega
      have hrowmin : (mkComp (gget g r c) dfs.2).min_r = r := by
        show listMin (dfs.2.map Prod.fst) = r
        apply listMin_eq
        · exact List.mem_map.mpr ⟨(r, c), hseedmem, rfl⟩
        · intro x hx
          obtain ⟨p, hp, rfl⟩ := List.mem_map.mp hx
          exact hrowbound p hp
      apply ih
      refine ⟨?_, ?_, ?_, ?_, ?_, ?_, ?_, ?_, htodoS.of_cons, ?_, ?_, ?_, ?_⟩
      · intro p
        rw [fvis' p, hvis p]
        constructor
        · rintro (⟨co, hco, hp⟩ | hp)
          · exact ⟨co, List.mem_append.mpr (Or.inl hco), hp⟩
          · exact ⟨mkComp (gget g r c) dfs.2,
              List.mem_append.mpr (Or.inr (List.mem_singleton.mpr rfl)), hp⟩
        · rintro ⟨co, hco, hp⟩
          rcases List.mem_append.mp hco with h | h
          · exact Or.inl ⟨co, h, hp⟩
          · rw [List.mem_singleton.mp h] at hp
            exact Or.inr hp
      · intro co hco p hp
        rcases List.mem_append.mp hco with h | h
        · exact hgood co h p hp
        · rw [List.mem_singleton.mp h] at hp ⊢
          exact fgood' p hp
      · intro co hco
        rcases List.mem_append.mp hco with h | h
        · exact hblank co h
        · rw [List.mem_singleton.mp h]
          exact hg.1
      · intro co hco
        rcases List.mem_append.mp hco with h | h
        · exact hne co h
        · rw [List.mem_singleton.mp h]
          exact List.ne_nil_of_mem hseedmem
      · intro co hco
        rcases List.mem_append.mp hco with h | h
        · exact hnd co h
        · rw [List.mem_singleton.mp h]
          exact fnd'
      · rw [List.pairwise_append]
        refine ⟨hdisj, List.pairwise_singleton _ _, ?_⟩
        intro co hco co2 hco2 p hp
        rw [List.mem_singleton.mp hco2]
        intro hc
        exact ffresh' p hc ((hvis p).mpr ⟨co, hco, hp⟩)
      · intro co hco x hx y hy
        rcases List.mem_append.mp hco with h | h
        · exact hreach co h x hx y hy
        · rw [List.mem_singleton.mp h] at hx hy
          exact (reach_symm g R C (freach' x hx)).trans (freach' y hy)
      · intro p hip hnb
        rcases hcover p hip hnb with hv | ht
        · exact Or.inl ((fvis' p).mpr (Or.inl hv))
        · rcases List.mem_cons.mp ht with h | h
          · rw [h]
            exact Or.inl ((fvis' (r, c)).mpr (Or.inr hseedmem))
          · exact Or.inr h
      · intro p hp
        exact htodoI p (List.mem_cons_of_mem _ hp)
      · intro co hco q hq
        rcases List.mem_append.mp hco with h | h
        · exact hsep co h q (List.mem_cons_of_mem _ hq)
        · rw [List.mem_singleton.mp h, hminScan]
          exact (List.pairwise_cons.mp htodoS).1 q hq
      · rw [List.pairwise_append]
        refine ⟨hcscan, List.pairwise_singleton _ _, ?_⟩
        intro co hco co2 hco2
        rw [List.mem_singleton.mp hco2, hminScan]
        exact hsep co hco (r, c) (List.mem_cons_self _ _)
      · intro co hco
        rcases List.mem_append.mp hco with h | h
        · exact hfirst co h
        · rw [List.mem_singleton.mp h]
          refine ⟨(r, c), hseedmem, hminScan.symm, ?_, ?_⟩
          · show r = (mkComp (gget g r c) dfs.2).min_r
            rw [hrowmin]
          · rw [hminScan]
            exact hscanmin
    · have hstep : ccLoop g R C ((r, c) :: rest) visited comps
          = ccLoop g R C rest visited comps := by
        rw [ccLoop, if_neg hg]
      rw [hstep]
      apply ih
      refine ⟨hvis, hgood, hblank, hne, hnd, hdisj, hreach, ?_, htodoS.of_cons, ?_, ?_,
        hcscan, hfirst⟩
      · intro p hip hnb
        rcases hcover p hip hnb with hv | ht
        · exact Or.inl hv
        · rcases List.mem_cons.mp ht with h | h
          · have hnb' : blankChar (gget g r c) = false := by
              rw [h] at hnb
              exact hnb
            by_cases hvz : (r, c) ∈ visited
            · rw [h]
              exact Or.inl hvz
            · exact absurd ⟨hnb', hvz⟩ hg
          · exact Or.inr h
      · intro p hp
        exact htodoI p (List.mem_cons_of_mem _ hp)
      · intro co hco q hq
        exact hsep co hco q (List.mem_cons_of_mem _ hq)

theorem ccinv_pairwise_min_r {g : Grid} {R C : ℕ} {vis : Finset Cell} {comps : List Comp}
    (hinv : CCInv g R C [] vis comps) :
    List.Pairwise (fun a b => a.min_r ≤ b.min_r) comps := by
  refine hinv.hcscan.imp_of_mem ?_
  intro a b ha hb hab
  obtain ⟨sa, hsa, hsca, hsra, _⟩ := hinv.hfirst a ha
  obtain ⟨sb, hsb, hscb, hsrb, _⟩ := hinv.hfirst b hb
  have hCa : sa.2 < C := (hinv.hgood a ha sa hsa).1.2
  have hCb : sb.2 < C := (hinv.hgood b hb sb hsb).1.2
  have e1 : scanIdx C sa = sa.1 * C + sa.2 := rfl
  have e2 : scanIdx C sb = sb.1 * C + sb.2 := rfl
  rw [← hsca, ← hscb] at hab
  have hle : sa.1 ≤ sb.1 := by
    by_contra hlt
    have h1 : (sb.1 + 1) * C ≤ sa.1 * C := Nat.mul_le_mul_right C (by omega)
    have h2 : (sb.1 + 1) * C = sb.1 * C + C := Nat.succ_mul sb.1 C
    omega
  omega

theorem ccinv_initial (g : Grid) :
    CCInv g g.length (g.headD []).length (rowMajor g.length (g.headD []).length) ∅ [] := by
  refine ⟨?_, ?_, ?_, ?_, ?_, List.Pairwise.nil, ?_, ?_, rowMajor_sorted _ _, ?_, ?_,
    List.Pairwise.nil, ?_⟩
  · intro p
    simp
  · intro co hco
    exact absurd hco (List.not_mem_nil _)
  · intro co hco
    exact absurd hco (List.not_mem_nil _)
  · intro co hco
    exact absurd hco (List.not_mem_nil _)
  · intro co hco
    exact absurd hco (List.not_mem_nil _)
  · intro co hco
    exact absurd hco (List.not_mem_nil _)
  · intro p hip _
    exact Or.inr ((mem_rowMajor _ _ p).mpr hip)
  · intro p hp
    exact (mem_rowMajor _ _ p).mp hp
  · intro co hco
    exact absurd hco (List.not_mem_nil _)
  · intro co hco
    exact absurd hco (List.not_mem_nil _)

theorem ccinv_final (g : Grid) :
    CCInv g g.length (g.headD []).length []
      (ccLoop g g.length (g.headD []).length (rowMajor g.length (g.headD []).length) ∅ []).1
      (ccLoop g g.length (g.headD []).length (rowMajor g.length (g.headD []).length) ∅ []).2 :=
  ccLoop_spec g g.length (g.headD []).length _ _ _ (ccinv_initial g)

theorem connected_components_eq_ccLoop (g : Grid) (hne : g ≠ []) :
    connected_components g
      = (ccLoop g g.length (g.headD []).length
          (rowMajor g.length (g.headD []).length) ∅ []).2 := by
  have hE : g.isEmpty = false := by
    cases g with
    | nil => exact absurd rfl hne
    | cons a l => rfl
  have hsorted : List.Sorted (fun a b => a.min_r ≤ b.min_r)
      (ccLoop g g.length (g.headD []).length
        (rowMajor g.length (g.headD []).length) ∅ []).2 :=
    ccinv_pairwise_min_r (ccinv_final g)
  unfold connected_components
  rw [if_neg (by simp [hE])]
  exact List.Sorted.insertionSort_eq hsorted

theorem disjoint_symm :
    Symmetric (fun c1 c2 : Comp => ∀ p, p ∈ c1.cells → p ∉ c2.cells) := by
  intro a b h p hpb hpa
  exact h p hpa hpb

/-- C1: for every (rectangular) grid, `connected_components` returns formations
whose cell lists partition the grid's non-blank cells — every in-bounds
non-blank cell lies in exactly one returned formation — each formation's cells
are in bounds, non-blank and all carry the formation's symbol, and any two
cells of one formation are mutually connected through a chain of 4-neighbour
same-symbol adjacencies (so adjacent cells with different symbols are never in
the same formation). -/
theorem formations_partition (g : Grid) (hrect : Rectangular g) :
    (∀ p : Cell, Inb g.length (g.headD []).length p → NonBlank g p →
      ∃! co, co ∈ connected_components g ∧ p ∈ co.cells) ∧
    (∀ co ∈ connected_components g, ∀ p ∈ co.cells,
      Inb g.length (g.headD []).length p ∧ NonBlank g p ∧ gget g p.1 p.2 = co.letter) ∧
    (∀ co ∈ connected_components g, ∀ x ∈ co.cells, ∀ y ∈ co.cells,
      Reach g g.length (g.headD []).length x y ∧ gget g x.1 x.2 = gget g y.1 y.2) := by
  rcases eq_or_ne g ([] : Grid) with rfl | hgne
  · refine ⟨?_, ?_, ?_⟩
    · intro p hip _
      exact absurd hip.1 (Nat.not_lt_zero _)
    · intro co hco
      exact absurd hco (List.not_mem_nil _)
    · intro co hco
      exact absurd hco (List.not_mem_nil _)
  · have hcc := connected_components_eq_ccLoop g hgne
    have hinv := ccinv_final g
    refine ⟨?_, ?_, ?_⟩
    · intro p hip hnb
      rcases hinv.hcover p hip hnb with hv | ht
      · obtain ⟨co, hco, hp⟩ := (hinv.hvis p).mp hv
        refine ⟨co, ⟨by rw [hcc]; exact hco, hp⟩, ?_⟩
        intro co2 hco2
        rw [hcc] at hco2
        by_contra hne2
        have hdis := hinv.hdisj.forall disjoint_symm hco2.1 hco hne2
        exact hdis p hco2.2 hp
      · exact absurd ht (List.not_mem_nil _)
    · intro co hco p hp
      rw [hcc] at hco
      have hg := hinv.hgood co hco p hp
      refine ⟨hg.1, ?_, hg.2⟩
      show blankChar (gget g p.1 p.2) = false
      rw [hg.2]
      exact hinv.hblank co hco
    · intro co hco x hx y hy
      rw [hcc] at hco
      refine ⟨hinv.hreach co hco x hx y hy, ?_⟩
      rw [(hinv.hgood co hco x hx).2, (hinv.hgood co hco y hy).2]

/-- C1 witness: the partition/connectivity theorem instantiated at the
three-row grid `"S.."`, `"..."`, `".K."`. -/
theorem formations_partition_witness :
    Rectangular gridSK ∧
    ((∀ p : Cell, Inb gridSK.length (gridSK.headD []).length p → NonBlank gridSK p →
      ∃! co, co ∈ connected_components gridSK ∧ p ∈ co.cells) ∧
    (∀ co ∈ connected_components gridSK, ∀ p ∈ co.cells,
      Inb gridSK.length (gridSK.headD []).length p ∧ NonBlank gridSK p ∧
        gget gridSK p.1 p.2 = co.letter) ∧
    (∀ co ∈ connected_components gridSK, ∀ x ∈ co.cells, ∀ y ∈ co.cells,
      Reach gridSK gridSK.length (gridSK.headD []).length x y ∧
        gget gridSK x.1 x.2 = gget gridSK y.1 y.2)) :=
  ⟨by decide, formations_partition gridSK (by decide)⟩

/-- C9: for every (rectangular) grid, the formation list returned by
`connected_components` is sorted by ascending `min_r`, and in fact totally
ordered by the row-major scan position of each formation's discovery cell:
every formation contains a cell realizing its minimal scan index (the first
cell of the formation reached by the row-major scan, which also realizes
`min_r`), and these discovery indices are strictly increasing along the list,
so formations with equal `min_r` appear in discovery order. -/
theorem formations_order (g : Grid) (hrect : Rectangular g) :
    List.Pairwise (fun a b => a.min_r ≤ b.min_r) (connected_components g) ∧
    List.Pairwise (fun a b =>
      minScan (g.headD []).length a < minScan (g.headD []).length b)
      (connected_components g) ∧
    (∀ co ∈ connected_components g, ∃ s ∈ co.cells,
      scanIdx (g.headD []).length s = minScan (g.headD []).length co ∧
      s.1 = co.min_r ∧
      ∀ p ∈ co.cells, minScan (g.headD []).length co ≤ scanIdx (g.headD []).length p) := by
  rcases eq_or_ne g ([] : Grid) with rfl | hgne
  · have hccnil : connected_components ([] : Grid) = [] := rfl
    rw [hccnil]
    refine ⟨List.Pairwise.nil, List.Pairwise.nil, ?_⟩
    intro co hco
    exact absurd hco (List.not_mem_nil _)
  · have hcc := connected_components_eq_ccLoop g hgne
    have hinv := ccinv_final g
    rw [hcc]
    exact ⟨ccinv_pairwise_min_r hinv, hinv.hcscan, hinv.hfirst⟩

/-- C9 witness: the ordering theorem instantiated at the L-shaped `B`
formation grid. -/
theorem formations_order_witness :
    Rectangular gridL ∧
    (List.Pairwise (fun a b => a.min_r ≤ b.min_r) (connected_components gridL) ∧
    List.Pairwise (fun a b =>
      minScan (gridL.headD []).length a < minScan (gridL.headD []).length b)
      (connected_components gridL) ∧
    (∀ co ∈ connected_components gridL, ∃ s ∈ co.cells,
      scanIdx (gridL.headD []).length s = minScan (gridL.headD []).length co ∧
      s.1 = co.min_r ∧
      ∀ p ∈ co.cells,
        minScan (gridL.headD []).length co ≤ scanIdx (gridL.headD []).length p)) :=
  ⟨by decide, formations_order gridL (by decide)⟩

end Main1942
